import Mathlib

/-!
Shallow embedding of `firepit/query.py`, the SQL query-builder of the
firepit repository, together with proofs about its specification.

Strings are embedded as `List Char` (`Chars`); Python exceptions are
embedded as an explicit `Err` sum returned through `Except`.  Methods that
can raise become `... → Except Err _` functions; pure methods stay pure.
Python truthiness tests on optional strings (`if x:`) are embedded by the
`optTrue` / `specTrue` helpers, which are false exactly on `None` and on
the empty string.
-/

set_option maxRecDepth 4000

namespace Firepit

abbrev Chars := List Char

/-- Character list of a string literal. -/
def str (s : String) : Chars := s.data

/-- Errors raised by `firepit/query.py` (exception classes of the module,
plus Python's built-in `AttributeError` and `TypeError` which some code
paths can raise on ill-typed arguments). -/
inductive Err where
  | invalidComparisonOperator
  | invalidPredicateOperator
  | invalidJoinOperator
  | invalidAggregateFunction
  | invalidQuery
  | validationError
  | attributeError
  | typeError
deriving DecidableEq

deriving instance DecidableEq for Except

/-- Bool test that a list starts with the given pattern (`str.startswith`). -/
def startsW : Chars → Chars → Bool
  | [], _ => true
  | _ :: _, [] => false
  | p :: ps, c :: cs => p == c && startsW ps cs

/-- Bool test that a list ends with the given pattern (`str.endswith`). -/
def endsW (p s : Chars) : Bool := startsW p.reverse s.reverse

/-- Drop the last `n` characters (`s[:-n]`). -/
def dropLastN (n : Nat) (s : Chars) : Chars := s.take (s.length - n)

/-- Python's `sep.join(items)`. -/
def joinSep (sep : Chars) : List Chars → Chars
  | [] => []
  | [t] => t
  | t :: ts => t ++ sep ++ joinSep sep ts

/-- ASCII upper-casing of one character (Python `str.upper` on ASCII). -/
def upChar (c : Char) : Char :=
  if 'a' ≤ c ∧ c ≤ 'z' then Char.ofNat (c.toNat - 32) else c

/-- ASCII lower-casing of one character (Python `str.lower` on ASCII). -/
def lowChar (c : Char) : Char :=
  if 'A' ≤ c ∧ c ≤ 'Z' then Char.ofNat (c.toNat + 32) else c

/-- Python `s.upper()`. -/
def upperChars (s : Chars) : Chars := s.map upChar

/-- Python `s.lower()`. -/
def lowerChars (s : Chars) : Chars := s.map lowChar

/-- Python truthiness of an optional string: false for `None` and `''`. -/
def optTrue : Option Chars → Bool
  | some (_ :: _) => true
  | _ => false

/-- Characters allowed in identifiers and path segments. -/
def isIdentChar (c : Char) : Bool := c.isAlpha || c.isDigit || c == '_'

/-- Modelled from the spec: `firepit.validate.validate_name` is not under
`src/`.  Per spec section 4.1 it accepts exactly the safe bare identifiers:
nonempty strings of letters, digits and underscores. -/
def validate_name (s : Chars) : Bool := !s.isEmpty && s.all isIdentChar

/-- Helper for `validate_path`: accepts nonempty dot-separated ident
segments; the Bool argument records whether the current segment is
nonempty so far. -/
def validPathAux : Chars → Bool → Bool
  | [], seg => seg
  | c :: cs, seg =>
      if c == '.' then seg && validPathAux cs false
      else isIdentChar c && validPathAux cs true

/-- Modelled from the spec: `firepit.validate.validate_path` is not under
`src/`.  Per spec section 4.1 it accepts dotted property paths (nonempty
dot-separated identifier segments), optionally suffixed with the
multi-valued marker `[*]`. -/
def validate_path (s : Chars) : Bool :=
  if endsW (str "[*]") s then validPathAux (dropLastN 3 s) false
  else validPathAux s false

/-- SQL column name (`Column` class): name, optional owning table,
optional output alias. -/
structure Column where
  name : Chars
  table : Option Chars
  «alias» : Option Chars
deriving DecidableEq

/-- Double-quote an SQL identifier if necessary (`_quote` on a string). -/
def quote (s : Chars) : Chars := if s = str "*" then s else '"' :: s ++ ['"']

/-- Text form of a `Column` (its `__str__`). -/
def columnStr (c : Column) : Chars :=
  let result :=
    match c.table with
    | some (t :: ts) => '"' :: (t :: ts) ++ str "\"." ++ quote c.name
    | _ => quote c.name
  match c.«alias» with
  | some (a :: as_) => result ++ str " AS \"" ++ (a :: as_) ++ ['"']
  | _ => result

/-- A column argument as accepted throughout the module: either a plain
string or a `Column` object. -/
inductive ColSpec where
  | str (s : Chars)
  | col (c : Column)
deriving DecidableEq

/-- Python truthiness of an optional column spec (`''` is falsy, every
`Column` object is truthy). -/
def specTrue : Option ColSpec → Bool
  | some (.str []) => false
  | some _ => true
  | none => false

/-- `_quote` as applied to a column spec: strings are quoted, `Column`
objects are interpolated through their `__str__`. -/
def quoteSpec : ColSpec → Chars
  | .str s => quote s
  | .col c => columnStr c

/-- Bare f-string interpolation of a column spec (`f'{col}'`). -/
def colInterp : ColSpec → Chars
  | .str s => s
  | .col c => columnStr c

/-- Interpolation of an optional value, printing `None` like Python does. -/
def optStr : Option Chars → Chars
  | some s => s
  | none => str "None"

/-- Interpolation of an optional column spec, printing `None` like Python. -/
def colInterpOpt : Option ColSpec → Chars
  | some c => colInterp c
  | none => str "None"

/-- `_validate_column_name`: the wildcard is accepted, everything else goes
through `validate_path`. -/
def validate_column_name (s : Chars) : Bool :=
  if s = str "*" then true else validate_path s

/-- `_validate_column`: validates a plain string or the parts of a
`Column` object (empty table/alias strings are skipped by truthiness). -/
def validate_column : ColSpec → Bool
  | .str s => validate_column_name s
  | .col c =>
      validate_column_name c.name &&
      (match c.table with
       | some (t :: ts) => validate_name (t :: ts)
       | _ => true) &&
      (match c.«alias» with
       | some (a :: as_) => validate_path (a :: as_)
       | _ => true)

/-- A scalar Python value as used for bound values. -/
inductive Value where
  | vstr (s : Chars)
  | vint (n : Int)
deriving DecidableEq

/-- The right-hand side accepted by `Predicate.__init__`: `None`, a
scalar, a sequence of scalars, or a `Column`. -/
inductive Rhs where
  | rnull
  | rval (v : Value)
  | rlist (vs : List Value)
  | rcol (c : Column)
deriving DecidableEq

/-- Python's `self.rhs in ['null', 'NULL']`: only those two exact strings
compare equal; every other value (ints, lists, `Column`s) does not. -/
def isNullStr : Rhs → Bool
  | .rval (.vstr s) => s == str "null" || s == str "NULL"
  | _ => false

/-- The fixed comparison-operator set `COMP_OPS`. -/
def COMP_OPS : List Chars :=
  [str "=", str "<>", str "!=", str "<", str ">", str "<=", str ">=",
   str "LIKE", str "IN", str "IS", str "IS NOT"]

/-- The fixed join-type set `JOIN_TYPES`. -/
def JOIN_TYPES : List Chars :=
  [str "INNER", str "OUTER", str "LEFT OUTER", str "CROSS"]

/-- The fixed aggregate-function set `AGG_FUNCS`. -/
def AGG_FUNCS : List Chars :=
  [str "COUNT", str "SUM", str "MIN", str "MAX", str "AVG", str "NUNIQUE"]

/-- Wrap a string with SQL wildcards (`f"%{rhs}%"`). -/
def wrapPercent (s : Chars) : Chars := '%' :: s ++ ['%']

/-- Simple row value predicate, as stored after `Predicate.__init__`. -/
structure Predicate where
  lhs : Chars
  op : Chars
  rhs : Rhs
  values : List Value
deriving DecidableEq

/-- The operators allowed together with a null right-hand value. -/
def NULL_OPS : List Chars :=
  [str "=", str "!=", str "<>", str "IS", str "IS NOT"]

/-- `Predicate.__init__`.  A `None` right-hand side is replaced by the
string `'NULL'`; a left-hand path ending in the multi-valued marker is
stripped and, for string right-hand sides not spelling null, the value is
wrapped in wildcards and `=` / `!=` become `LIKE` / `NOT LIKE` (calling
`.lower()` on a non-string right-hand side raises `AttributeError`); the
path is then validated, and a null right-hand side restricts the operator
to `NULL_OPS`. -/
def Predicate.make (lhs0 op0 : Chars) (rhs0 : Rhs) : Except Err Predicate :=
  if op0 ∉ COMP_OPS then .error .invalidComparisonOperator
  else
    let rhs1 : Rhs := if rhs0 = .rnull then .rval (.vstr (str "NULL")) else rhs0
    let step : Except Err (Chars × Chars × Rhs) :=
      if endsW (str "[*]") lhs0 then
        match rhs1 with
        | .rval (.vstr s) =>
            if lowerChars s ≠ str "null" then
              .ok (dropLastN 3 lhs0,
                   if op0 = str "=" then str "LIKE"
                   else if op0 = str "!=" then str "NOT LIKE"
                   else op0,
                   .rval (.vstr (wrapPercent s)))
            else .ok (dropLastN 3 lhs0, op0, rhs1)
        | _ => .error .attributeError
      else .ok (lhs0, op0, rhs1)
    match step with
    | .error e => .error e
    | .ok (lhs, op, rhs) =>
        if validate_path lhs then
          if isNullStr rhs then
            if op ∈ NULL_OPS then .ok ⟨lhs, op, rhs, []⟩
            else .error .invalidComparisonOperator
          else
            match rhs with
            | .rlist vs => .ok ⟨lhs, op, rhs, vs⟩
            | .rcol _ => .ok ⟨lhs, op, rhs, []⟩
            | .rval v => .ok ⟨lhs, op, rhs, [v]⟩
            | .rnull => .ok ⟨lhs, op, rhs, []⟩
        else .error .validationError

/-- `Predicate.render`: null right-hand sides lower to `IS NULL` /
`IS NOT NULL` (raising for the other null-compatible operators), `Column`
right-hand sides compare identifier to identifier, `IN` expands one
placeholder per element of its right-hand side (one per character when the
right-hand side is a string, via `len`; `len` of an int or `None` raises
`TypeError`), and anything else gets a single placeholder. -/
def Predicate.render (p : Predicate) (placeholder : Chars) : Except Err Chars :=
  if isNullStr p.rhs then
    if p.op = str "!=" ∨ p.op = str "<>" then
      .ok ('(' :: quote p.lhs ++ str " IS NOT NULL)")
    else if p.op = str "=" then
      .ok ('(' :: quote p.lhs ++ str " IS NULL)")
    else .error .invalidComparisonOperator
  else
    match p.rhs with
    | .rcol c =>
        .ok ('(' :: quote p.lhs ++ ' ' :: p.op ++ ' ' :: columnStr c ++ [')'])
    | rhs =>
        if p.op = str "IN" then
          match rhs with
          | .rlist vs =>
              .ok ('(' :: quote p.lhs ++ ' ' :: p.op ++ str " (" ++
                   joinSep (str ", ") (vs.map fun _ => placeholder) ++ str "))")
          | .rval (.vstr s) =>
              .ok ('(' :: quote p.lhs ++ ' ' :: p.op ++ str " (" ++
                   joinSep (str ", ") (s.map fun _ => placeholder) ++ str "))")
          | _ => .error .typeError
        else
          .ok ('(' :: quote p.lhs ++ ' ' :: p.op ++ ' ' :: placeholder ++ [')'])

/-- Alternative SQL WHERE clause (`Filter`), as stored after
`Filter.__init__`. -/
structure Filter where
  preds : List Predicate
  op : Chars
  values : List Value
deriving DecidableEq

/-- `Filter.__init__`: gathers the child predicates' bound values in
order. -/
def Filter.make (preds : List Predicate) (op : Chars) : Filter :=
  ⟨preds, op, (preds.map Predicate.values).flatten⟩

/-- Render each child predicate in order, stopping at the first error. -/
def renderPreds (placeholder : Chars) : List Predicate → Except Err (List Chars)
  | [] => .ok []
  | p :: ps =>
      match p.render placeholder, renderPreds placeholder ps with
      | .ok t, .ok ts => .ok (t :: ts)
      | .error e, _ => .error e
      | _, .error e => .error e

/-- `Filter.render`: joins the child predicates with the combinator text
and parenthesizes an OR-combined filter. -/
def Filter.render (f : Filter) (placeholder : Chars) : Except Err Chars :=
  match renderPreds placeholder f.preds with
  | .error e => .error e
  | .ok ts =>
      let result := joinSep f.op ts
      if f.op = str " OR " then .ok ('(' :: result ++ [')'])
      else .ok result

example : Predicate.make (str "age") (str "=") .rnull =
    .ok ⟨str "age", str "=", .rval (.vstr (str "NULL")), []⟩ := by decide

example : Predicate.make (str "age") (str "<") .rnull =
    .error .invalidComparisonOperator := by decide

example : Predicate.make (str "labels[*]") (str "=") (.rval (.vstr (str "x"))) =
    .ok ⟨str "labels", str "LIKE", .rval (.vstr (str "%x%")), [.vstr (str "%x%")]⟩ := by
  decide

example :
    (Predicate.render ⟨str "age", str "=", .rval (.vstr (str "NULL")), []⟩ (str "?")) =
      .ok (str "(\"age\" IS NULL)") := by decide

/-- Aggregate rows (`Aggregation`), as stored after its `__init__`:
validated `(func, col, alias)` triples plus grouping columns back-filled
by `Query.append`. -/
structure Aggregation where
  aggs : List (Chars × Option ColSpec × Option Chars)
  group_cols : List ColSpec
deriving DecidableEq

/-- Column validity test used by `Aggregation.__init__`
(`col is not None and col != '*'` guards the validation call). -/
def aggColOk : Option ColSpec → Bool
  | none => true
  | some (.str s) => if s = str "*" then true else validate_column (.str s)
  | some c => validate_column c

/-- The element-wise checks of `Aggregation.__init__`, in order: the
function must be in `AGG_FUNCS` (case-insensitively), then the column is
validated. -/
def mkAggs : List (Chars × Option ColSpec × Option Chars) →
    Except Err (List (Chars × Option ColSpec × Option Chars))
  | [] => .ok []
  | (func, col, al) :: rest =>
      if upperChars func ∉ AGG_FUNCS then .error .invalidAggregateFunction
      else if aggColOk col then
        match mkAggs rest with
        | .ok as_ => .ok ((func, col, al) :: as_)
        | .error e => .error e
      else .error .validationError

/-- `Aggregation.__init__` (tuples already shaped as length-3 triples;
two-element tuples correspond to a `none` alias). -/
def Aggregation.make (aggs : List (Chars × Option ColSpec × Option Chars)) :
    Except Err Aggregation :=
  match mkAggs aggs with
  | .ok as_ => .ok ⟨as_, []⟩
  | .error e => .error e

/-- One select-list expression of `Aggregation.render`: `NUNIQUE` lowers
to `COUNT` with a `DISTINCT ` modifier, a missing or falsy column becomes
`*`, and a missing alias defaults to the lower-cased (possibly rewritten)
function name. -/
def aggExpr (agg : Chars × Option ColSpec × Option Chars) : Chars :=
  let fm : Chars × Chars :=
    if upperChars agg.1 = str "NUNIQUE" then (str "COUNT", str "DISTINCT ")
    else (agg.1, str "")
  let col1 : ColSpec :=
    match agg.2.1 with
    | some c => if specTrue (some c) then c else .str (str "*")
    | none => .str (str "*")
  let expr :=
    if col1 = ColSpec.str (str "*") then fm.1 ++ '(' :: fm.2 ++ str "*)"
    else fm.1 ++ '(' :: fm.2 ++ '"' :: colInterp col1 ++ str "\")"
  let alias1 : Chars :=
    match agg.2.2 with
    | some (a :: as_) => a :: as_
    | _ => lowerChars fm.1
  expr ++ str " AS \"" ++ alias1 ++ ['"']

/-- `Aggregation.render`: the inherited grouping columns (quoted) followed
by the aggregate expressions. -/
def Aggregation.render (a : Aggregation) : Chars :=
  joinSep (str ", ") (a.group_cols.map quoteSpec ++ a.aggs.map aggExpr)

/-- One digit character. -/
def digitChar : Nat → Char
  | 0 => '0'
  | 1 => '1'
  | 2 => '2'
  | 3 => '3'
  | 4 => '4'
  | 5 => '5'
  | 6 => '6'
  | 7 => '7'
  | 8 => '8'
  | 9 => '9'
  | _ => '*'

/-- Fuelled digit expansion (the fuel is an upper bound on the number of
digits). -/
def natCharsGo : Nat → Nat → Chars → Chars
  | 0, _, acc => acc
  | fuel + 1, n, acc =>
      if n < 10 then digitChar n :: acc
      else natCharsGo fuel (n / 10) (digitChar (n % 10) :: acc)

/-- Python `str(num)` for a non-negative integer. -/
def natChars (n : Nat) : Chars := natCharsGo (n + 1) n []

/-- Join two tables (`Join`), as stored after its `__init__`. -/
structure Join where
  prev_name : Option Chars
  name : Chars
  left_col : Option ColSpec
  op : Option Chars
  right_col : Option ColSpec
  how : Chars
  «alias» : Option Chars
  values : List Value
  preds : Option (List Predicate)
deriving DecidableEq

/-- `Join.__init__`: validates the table name, the explicit condition
columns when all three of `left_col`/`op`/`right_col` are truthy, the
alias, and the join kind; gathers bound values from `preds` when given. -/
def Join.make (name : Chars) (left_col : Option ColSpec) (op : Option Chars)
    (right_col : Option ColSpec) (preds : Option (List Predicate))
    (how : Chars) (al lhs : Option Chars) : Except Err Join :=
  if ¬ validate_name name then .error .validationError
  else if specTrue left_col && optTrue op && specTrue right_col &&
      !(validate_column ((left_col).getD (.str [])) &&
        validate_column ((right_col).getD (.str []))) then
    .error .validationError
  else if optTrue al && ¬ validate_name (al.getD []) then .error .validationError
  else if optTrue lhs && ¬ validate_name name then .error .validationError
  else if upperChars how ∉ JOIN_TYPES then .error .invalidJoinOperator
  else
    .ok ⟨lhs, name, left_col, op, right_col, how, al,
         (match preds with
          | some ps => (ps.map Predicate.values).flatten
          | none => []),
         preds⟩

/-- `Join.__eq__` compares the stored fields (but not `preds` or
`values`).  Column-typed condition entries compare by Python object
identity, which two independently constructed values never satisfy, so the
embedding makes that case false. -/
def optSpecPyEq : Option ColSpec → Option ColSpec → Bool
  | none, none => true
  | some (.str a), some (.str b) => a == b
  | _, _ => false

/-- `Join.__eq__`. -/
def Join.pyEq (a b : Join) : Bool :=
  a.prev_name == b.prev_name && a.name == b.name &&
  optSpecPyEq a.left_col b.left_col && a.op == b.op &&
  optSpecPyEq a.right_col b.right_col && a.how == b.how &&
  a.«alias» == b.«alias»

/-- `Join.render`: `<KIND> JOIN <table>[ AS <alias>] ON <condition>`, the
condition coming either from the explicit column triple (interpolating
`None` for missing parts, as Python f-strings do) or from the AND-joined
predicate list (`None` `preds` would raise `TypeError` on iteration). -/
def Join.render (j : Join) (placeholder : Chars) : Except Err Chars :=
  let target0 := '"' :: j.name ++ ['"']
  let tt : Chars × Chars :=
    match j.«alias» with
    | some (a :: as_) =>
        (target0 ++ str " AS \"" ++ (a :: as_) ++ ['"'],
         '"' :: (a :: as_) ++ ['"'])
    | _ => (target0, target0)
  let condE : Except Err Chars :=
    if specTrue j.left_col then
      .ok ('"' :: optStr j.prev_name ++ str "\".\"" ++
           colInterpOpt j.left_col ++ str "\" " ++ optStr j.op ++
           ' ' :: tt.2 ++ str ".\"" ++ colInterpOpt j.right_col ++ ['"'])
    else
      match j.preds with
      | some ps =>
          match renderPreds placeholder ps with
          | .ok ts => .ok (joinSep (str " AND ") ts)
          | .error e => .error e
      | none => .error .typeError
  match condE with
  | .ok cond =>
      .ok (upperChars j.how ++ str " JOIN " ++ tt.1 ++ str " ON " ++ cond)
  | .error e => .error e

/-- One stage of a query: the closed sum of all clause classes that
`Query.append` and `Query.render` dispatch on. -/
inductive Stage where
  | table (name : Chars)
  | projection (cols : List ColSpec)
  | filter (f : Filter)
  | order (cols : List (Chars × Chars))
  | group (cols : List ColSpec)
  | aggregation (a : Aggregation)
  | offset (n : Nat)
  | limit (n : Nat)
  | count
  | unique
  | countUnique (cols : Option (List ColSpec))
  | join (j : Join)
deriving DecidableEq

/-- One ORDER BY item (`f'"{col[0]}" {col[1]}'`). -/
def orderCol (c : Chars × Chars) : Chars := '"' :: c.1 ++ str "\" " ++ c.2

/-- The per-column preprocessing of `Group.render` (Column-typed entries
use an inconsistent quoting pattern, reproduced faithfully). -/
def groupColText : ColSpec → Chars
  | .col c =>
      match c.table with
      | some (t :: ts) => (t :: ts) ++ str "\".\"" ++ c.name
      | _ => c.name
  | .str s => s

/-- `CountUnique.render`. -/
def countUniqueText : Option (List ColSpec) → Chars
  | some (c :: cs) =>
      str "COUNT(DISTINCT " ++
      joinSep (str ", ") ((c :: cs).map (fun col => '"' :: colInterp col ++ ['"'])) ++
      str ") AS \"count\""
  | _ => str "COUNT(*) AS \"count\""

/-- The `render` method of each stage class, as called by `Query.render`
(`Table.render` returns the bare name; `Unique.render`'s text is computed
but unused by `Query.render`). -/
def Stage.render (s : Stage) (placeholder : Chars) : Except Err Chars :=
  match s with
  | .table name => .ok name
  | .projection cols => .ok (joinSep (str ", ") (cols.map quoteSpec))
  | .filter f => f.render placeholder
  | .order cols => .ok (joinSep (str ", ") (cols.map orderCol))
  | .group cols => .ok (joinSep (str ", ") (cols.map (fun c => quote (groupColText c))))
  | .aggregation a => .ok a.render
  | .offset n => .ok (natChars n)
  | .limit n => .ok (natChars n)
  | .count => .ok (str "COUNT(*) AS \"count\"")
  | .unique => .ok (str "SELECT DISTINCT *")
  | .countUnique cols => .ok (countUniqueText cols)
  | .join j => j.render placeholder

/-- The ordered stage sequence plus the table-name stack (`Query`). -/
structure Query where
  stages : List Stage
  tables : List Chars
deriving DecidableEq

/-- `Query.last_stage`. -/
def Query.lastStage (q : Query) : Option Stage := q.stages.getLast?

/-- Is this stage a `Projection`? -/
def Stage.isProjection : Stage → Bool
  | .projection _ => true
  | _ => false

/-- `Query.append`: the combinator rules, evaluated against the current
stage sequence.  Aggregation is rejected if any present stage is a
Projection and inherits the columns of an immediately preceding Group;
a Join equal (by `Join.pyEq`) to an immediately preceding Join is dropped,
otherwise its missing previous-table name is resolved from a preceding
Table or Join (failing structurally if neither precedes); Count after
Unique folds into a CountUnique, absorbing a Projection immediately before
the Unique; CountUnique absorbs an immediately preceding Projection; a
Table pushes its name on the table stack. -/
def Query.append (q : Query) (stage : Stage) : Except Err Query :=
  match stage with
  | .aggregation a =>
      if q.stages.any Stage.isProjection then .error .invalidQuery
      else
        let a1 := match q.lastStage with
          | some (.group cols) => { a with group_cols := cols }
          | _ => a
        .ok ⟨q.stages ++ [.aggregation a1], q.tables⟩
  | .join j =>
      match q.lastStage with
      | some (.join last) =>
          if Join.pyEq last j then .ok q
          else
            let j1 := if optTrue j.prev_name then j
                      else { j with prev_name := some last.name }
            .ok ⟨q.stages ++ [.join j1], q.tables⟩
      | some (.table t) =>
          let j1 := if optTrue j.prev_name then j
                    else { j with prev_name := some t }
          .ok ⟨q.stages ++ [.join j1], q.tables⟩
      | _ => .error .invalidQuery
  | .count =>
      match q.lastStage with
      | some .unique =>
          let s1 := q.stages.dropLast
          match s1.getLast? with
          | some (.projection cols) =>
              .ok ⟨s1.dropLast ++ [.countUnique (some cols)], q.tables⟩
          | _ => .ok ⟨s1 ++ [.countUnique none], q.tables⟩
      | _ => .ok ⟨q.stages ++ [.count], q.tables⟩
  | .countUnique _ =>
      match q.lastStage with
      | some (.projection cols) =>
          .ok ⟨q.stages.dropLast ++ [.countUnique (some cols)], q.tables⟩
      | _ => .ok ⟨q.stages ++ [stage], q.tables⟩
  | .table t => .ok ⟨q.stages ++ [.table t], q.tables ++ [t]⟩
  | _ => .ok ⟨q.stages ++ [stage], q.tables⟩

/-- `Table.__init__` validates the table name. -/
def Table.make (name : Chars) : Except Err Chars :=
  if validate_name name then .ok name else .error .validationError

/-- The empty `Query()`. -/
def Query.empty : Query := ⟨[], []⟩

/-- `Query(arg)` for a string argument: append a `Table`. -/
def Query.ofTable (name : Chars) : Except Err Query :=
  match Table.make name with
  | .ok t => Query.empty.append (.table t)
  | .error e => .error e

/-- The WHERE/AND/HAVING choice of the Filter arm of `Query.render`,
driven by the previous stage's kind. -/
def filterKeyword (prev : Option Stage) : Chars :=
  match prev with
  | some (.aggregation _) => str "HAVING"
  | some (.filter _) => str "AND"
  | _ => str "WHERE"

/-- The per-stage text/value update of the `Query.render` fold, given the
stage's already-rendered `text`, the accumulated SQL `query`, the gathered
`values` and the previous stage. -/
def stageStep (stage : Stage) (prev : Option Stage) (text query : Chars)
    (values : List Value) : Chars × List Value :=
  match stage with
  | .table _ => (str "FROM \"" ++ text ++ ['"'], values)
  | .projection _ => (str "SELECT " ++ text ++ ' ' :: query, values)
  | .filter f =>
      (query ++ ' ' :: filterKeyword prev ++ ' ' :: text, values ++ f.values)
  | .group _ => (query ++ str " GROUP BY " ++ text, values)
  | .aggregation _ => (str "SELECT " ++ text ++ ' ' :: query, values)
  | .order _ => (query ++ str " ORDER BY " ++ text, values)
  | .limit _ => (query ++ str " LIMIT " ++ text, values)
  | .offset _ => (query ++ str " OFFSET " ++ text, values)
  | .count =>
      match prev with
      | some .unique =>
          (str "SELECT " ++ text ++ str " FROM (" ++ query ++ str ") AS tmp", values)
      | _ => (str "SELECT " ++ text ++ ' ' :: query, values)
  | .unique =>
      if startsW (str "SELECT ") query
      then (str "SELECT DISTINCT " ++ query.drop 7, values)
      else (str "SELECT DISTINCT * " ++ query, values)
  | .join j => (query ++ ' ' :: text, values ++ j.values)
  | .countUnique cols =>
      match cols with
      | some (_ :: _) => (str "SELECT " ++ text ++ ' ' :: query, values)
      | _ =>
          (str "SELECT " ++ text ++ str " FROM (SELECT DISTINCT * " ++ query ++
           str ") AS tmp", values)

/-- The left-to-right fold of `Query.render` over the stage sequence. -/
def renderLoop (placeholder : Chars) :
    List Stage → Option Stage → Chars → List Value → Except Err (Chars × List Value)
  | [], _, query, values => .ok (query, values)
  | stage :: rest, prev, query, values =>
      match stage.render placeholder with
      | .error e => .error e
      | .ok text =>
          let qv := stageStep stage prev text query values
          renderLoop placeholder rest (some stage) qv.1 qv.2

/-- The post-fold fixup of `Query.render`: prefix `SELECT * ` when no
projection was emitted. -/
def finalize (query : Chars) : Chars :=
  if startsW (str "SELECT") query then query else str "SELECT * " ++ query

/-- `Query.render`: fails structurally with no table, otherwise folds the
stages and returns the SQL text with the gathered bound values.  The
post-state query is returned alongside, reflecting that the method reads
but never writes `self`. -/
def Query.render (q : Query) (placeholder : Chars) :
    Except Err ((Chars × List Value) × Query) :=
  if q.tables = [] then .error .invalidQuery
  else
    match renderLoop placeholder q.stages none (str "") [] with
    | .ok qv => .ok ((finalize qv.1, qv.2), q)
    | .error e => .error e

/-- The bound values a stage contributes during the render fold: only
Filter and Join stages contribute. -/
def Stage.boundValues : Stage → List Value
  | .filter f => f.values
  | .join j => j.values
  | _ => []

/-- The concatenation, in stage order, of the bound values of all Filter
and Join stages. -/
def boundValues (stages : List Stage) : List Value :=
  (stages.map Stage.boundValues).flatten

example :
    (match Query.ofTable (str "people") with
     | .ok q =>
         match q.append (.filter (Filter.make
             [⟨str "age", str ">", .rval (.vint 30), [.vint 30]⟩] (str " AND "))) with
         | .ok q2 => q2.render (str "?")
         | .error e => .error e
     | .error e => .error e) =
    .ok ((str "SELECT * FROM \"people\" WHERE (\"age\" > ?)", [.vint 30]),
         ⟨[.table (str "people"),
           .filter ⟨[⟨str "age", str ">", .rval (.vint 30), [.vint 30]⟩],
                    str " AND ", [.vint 30]⟩],
          [str "people"]⟩) := by decide

/-- The left-hand path after the multi-valued-marker stripping of
`Predicate.__init__`. -/
def stripStar (s : Chars) : Chars :=
  if endsW (str "[*]") s then dropLastN 3 s else s

/-- Characterization of `Predicate.make` on a right-hand side spelling
null (the strings `'null'` / `'NULL'`, which is also what a `None`
argument is converted to). -/
theorem make_null_like (lhs op s : Chars) (hs : s = str "null" ∨ s = str "NULL") :
    Predicate.make lhs op (.rval (.vstr s)) =
      if op ∈ COMP_OPS then
        if validate_path (stripStar lhs) then
          if op ∈ NULL_OPS then .ok ⟨stripStar lhs, op, .rval (.vstr s), []⟩
          else .error .invalidComparisonOperator
        else .error .validationError
      else .error .invalidComparisonOperator := by
  have hrhs : ((Rhs.rval (.vstr s)) = .rnull) = False := by
    simp
  rcases hs with rfl | rfl <;>
  · unfold Predicate.make stripStar
    by_cases h1 : op ∈ COMP_OPS
    · by_cases h2 : endsW (str "[*]") lhs
      · simp only [h1, h2, hrhs, not_true_eq_false, if_true, if_false,
          decide_True, decide_False]
        norm_num
        have hlow : (lowerChars (str "null") = str "null") ∧
            (lowerChars (str "NULL") = str "null") := by decide
        simp [hlow.1, hlow.2, isNullStr]
      · simp only [h1, h2, hrhs, not_true_eq_false, if_true, if_false]
        norm_num
        simp [isNullStr]
    · simp [h1]

/-- `Predicate.make` treats a `None` right-hand side exactly as the
string `'NULL'`. -/
theorem make_rnull_eq (lhs op : Chars) :
    Predicate.make lhs op .rnull = Predicate.make lhs op (.rval (.vstr (str "NULL"))) := rfl

/-- C4 (corrected): for a valid left-hand path, constructing a Predicate
with a null right-hand value succeeds exactly when the operator is one of
`=`, `!=`, `<>`, `IS`, `IS NOT`; every such predicate carries zero bound
values; those with `=` / `!=` / `<>` render as `(<col> IS NULL)` /
`(<col> IS NOT NULL)` for any placeholder, while `IS` and `IS NOT` — though
accepted at construction — raise the unsupported-operator error when
rendered. -/
theorem c4_amended (lhs op : Chars) (hv : validate_path (stripStar lhs) = true) :
    ((Predicate.make lhs op .rnull).isOk = true ↔ op ∈ NULL_OPS) ∧
    ∀ p, Predicate.make lhs op .rnull = .ok p →
      p.values = [] ∧
      ∀ ph,
        (op = str "=" → p.render ph = .ok ('(' :: quote p.lhs ++ str " IS NULL)")) ∧
        ((op = str "!=" ∨ op = str "<>") →
          p.render ph = .ok ('(' :: quote p.lhs ++ str " IS NOT NULL)")) ∧
        ((op = str "IS" ∨ op = str "IS NOT") →
          p.render ph = .error .invalidComparisonOperator) := by
  have hmk := make_null_like lhs op (str "NULL") (Or.inr rfl)
  rw [make_rnull_eq, hmk]
  by_cases h4 : op ∈ NULL_OPS
  · have h1 : op ∈ COMP_OPS := by
      simp only [NULL_OPS, List.mem_cons, List.not_mem_nil, or_false] at h4
      rcases h4 with rfl | rfl | rfl | rfl | rfl <;> decide
    rw [if_pos h1, if_pos hv, if_pos h4]
    refine ⟨iff_of_true rfl h4, ?_⟩
    rintro p hp
    injection hp with hp
    subst hp
    refine ⟨rfl, ?_⟩
    intro ph
    refine ⟨?_, ?_, ?_⟩
    · rintro rfl
      rfl
    · rintro (rfl | rfl) <;> rfl
    · rintro (rfl | rfl) <;> rfl
  · by_cases h1 : op ∈ COMP_OPS
    · rw [if_pos h1, if_pos hv, if_neg h4]
      exact ⟨iff_of_false (by decide) h4, fun p hp => by cases hp⟩
    · rw [if_neg h1]
      exact ⟨iff_of_false (by decide) h4, fun p hp => by cases hp⟩

/-- C4 witness: the amended claim at `lhs = "age"`, `op = "="`. -/
theorem c4_witness :
    ((Predicate.make (str "age") (str "=") .rnull).isOk = true ↔
        str "=" ∈ NULL_OPS) ∧
    ∀ p, Predicate.make (str "age") (str "=") .rnull = .ok p →
      p.values = [] ∧
      ∀ ph,
        (str "=" = str "=" → p.render ph = .ok ('(' :: quote p.lhs ++ str " IS NULL)")) ∧
        ((str "=" = str "!=" ∨ str "=" = str "<>") →
          p.render ph = .ok ('(' :: quote p.lhs ++ str " IS NOT NULL)")) ∧
        ((str "=" = str "IS" ∨ str "=" = str "IS NOT") →
          p.render ph = .error .invalidComparisonOperator) :=
  c4_amended (str "age") (str "=") (by decide)

/-- C5 (corrected): a multi-valued-marker path with a *string* right-hand
value whose lower-casing is not `null` gets the marker stripped, the value
wildcard-wrapped, and `=` / `!=` rewritten to `LIKE` / `NOT LIKE`; in
particular `Predicate("labels[*]", "=", "x")` renders with `LIKE` and
binds exactly `"%x%"`.  (Non-string scalars instead raise
`AttributeError`, and strings spelling null are not wrapped — see the
counterexample.) -/
theorem c5_amended (lhs op s : Chars) (hm : endsW (str "[*]") lhs = true)
    (hs : lowerChars s ≠ str "null") (hop : op ∈ COMP_OPS)
    (hv : validate_path (dropLastN 3 lhs) = true) :
    Predicate.make lhs op (.rval (.vstr s)) =
      .ok ⟨dropLastN 3 lhs,
           if op = str "=" then str "LIKE"
           else if op = str "!=" then str "NOT LIKE" else op,
           .rval (.vstr (wrapPercent s)), [.vstr (wrapPercent s)]⟩ ∧
    (Predicate.make (str "labels[*]") (str "=") (.rval (.vstr (str "x")))).bind
        (fun p => p.render (str "?")) = .ok (str "(\"labels\" LIKE ?)") ∧
    (Predicate.make (str "labels[*]") (str "=") (.rval (.vstr (str "x")))).map
        Predicate.values = .ok [.vstr (str "%x%")] := by
  refine ⟨?_, by decide, by decide⟩
  have hnn : isNullStr (.rval (.vstr (wrapPercent s))) = false := by
    simp only [isNullStr, wrapPercent, Bool.or_eq_false_iff, beq_eq_false_iff_ne]
    constructor <;> (intro hc; simp only [str] at hc; cases hc)
  have h0 : (Rhs.rval (Value.vstr s) = Rhs.rnull) = False := by simp
  simp only [Predicate.make, h0, if_false, hm, eq_self_iff_true, if_true]
  rw [if_neg (by simp [hop])]
  rw [if_pos hs]
  simp only [hv, eq_self_iff_true, if_true, hnn]
  rfl

/-- C5 witness: the amended claim at `"labels[*]" = "x"`. -/
theorem c5_witness :
    Predicate.make (str "labels[*]") (str "=") (.rval (.vstr (str "x"))) =
      .ok ⟨dropLastN 3 (str "labels[*]"),
           if str "=" = str "=" then str "LIKE"
           else if str "=" = str "!=" then str "NOT LIKE" else str "=",
           .rval (.vstr (wrapPercent (str "x"))), [.vstr (wrapPercent (str "x"))]⟩ ∧
    (Predicate.make (str "labels[*]") (str "=") (.rval (.vstr (str "x")))).bind
        (fun p => p.render (str "?")) = .ok (str "(\"labels\" LIKE ?)") ∧
    (Predicate.make (str "labels[*]") (str "=") (.rval (.vstr (str "x")))).map
        Predicate.values = .ok [.vstr (str "%x%")] :=
  c5_amended (str "labels[*]") (str "=") (str "x") (by decide) (by decide)
    (by decide) (by decide)

/-- C9 (confirmed): a caller-supplied right-hand string `"NULL"` or
`"null"` is indistinguishable from the null marker: with `"NULL"` the
constructed value is literally the same, with `"null"` construction
succeeds under exactly the same conditions and the result carries zero
bound values and renders identically to the null-marker predicate. -/
theorem c9_null_literal_strings (lhs op : Chars) :
    Predicate.make lhs op (.rval (.vstr (str "NULL"))) = Predicate.make lhs op .rnull ∧
    (Predicate.make lhs op (.rval (.vstr (str "null")))).isOk =
      (Predicate.make lhs op .rnull).isOk ∧
    ∀ p p', Predicate.make lhs op (.rval (.vstr (str "null"))) = .ok p →
      Predicate.make lhs op .rnull = .ok p' →
      p.values = [] ∧ p.lhs = p'.lhs ∧ p.op = p'.op ∧
      ∀ ph, p.render ph = p'.render ph := by
  have hn := make_null_like lhs op (str "null") (Or.inl rfl)
  have hN := make_null_like lhs op (str "NULL") (Or.inr rfl)
  refine ⟨(make_rnull_eq lhs op).symm, ?_, ?_⟩
  · rw [make_rnull_eq, hn, hN]
    split_ifs <;> rfl
  · intro p p' hp hp'
    rw [hn] at hp
    rw [make_rnull_eq, hN] at hp'
    split_ifs at hp hp' with h1 h2 h3
    injection hp with hp
    injection hp' with hp'
    subst hp
    subst hp'
    refine ⟨rfl, rfl, rfl, ?_⟩
    intro ph
    have hu1 : isNullStr (.rval (.vstr (str "null"))) = true := by decide
    have hu2 : isNullStr (.rval (.vstr (str "NULL"))) = true := by decide
    unfold Predicate.render
    simp only [hu1, hu2, if_true]

/-- C9 witness: the claim at `lhs = "age"`, `op = "="`, with the inner
implications discharged at the concretely constructed predicates. -/
theorem c9_witness :
    (Predicate.make (str "age") (str "=") (.rval (.vstr (str "NULL"))) =
        Predicate.make (str "age") (str "=") .rnull) ∧
    ((Predicate.make (str "age") (str "=") (.rval (.vstr (str "null")))).isOk =
        (Predicate.make (str "age") (str "=") .rnull).isOk) ∧
    (Predicate.make (str "age") (str "=") (.rval (.vstr (str "null"))) =
        .ok ⟨str "age", str "=", .rval (.vstr (str "null")), []⟩) ∧
    (⟨str "age", str "=", .rval (.vstr (str "null")), []⟩ : Predicate).values = [] ∧
    (Predicate.render ⟨str "age", str "=", .rval (.vstr (str "null")), []⟩ (str "?") =
        Predicate.render ⟨str "age", str "=", .rval (.vstr (str "NULL")), []⟩ (str "?")) := by
  have h := (c9_null_literal_strings (str "age") (str "=")).2.2
    ⟨str "age", str "=", .rval (.vstr (str "null")), []⟩
    ⟨str "age", str "=", .rval (.vstr (str "NULL")), []⟩ (by decide) (by decide)
  exact ⟨(c9_null_literal_strings (str "age") (str "=")).1,
         (c9_null_literal_strings (str "age") (str "=")).2.1,
         by decide, h.1, h.2.2.2 (str "?")⟩

/-- C4 counterexample: `Predicate("age", "IS", None)` is successfully
constructed (the operator is null-compatible) and yet rendering it raises
the unsupported-operator error instead of producing `("age" IS NULL)`. -/
theorem c4_counterexample :
    Predicate.make (str "age") (str "IS") .rnull =
      .ok ⟨str "age", str "IS", .rval (.vstr (str "NULL")), []⟩ ∧
    Predicate.render ⟨str "age", str "IS", .rval (.vstr (str "NULL")), []⟩ (str "?") =
      .error .invalidComparisonOperator := by decide

/-- C5 counterexample: with a multi-valued-marker path, a non-string
scalar right-hand value makes construction raise `AttributeError`
(Python calls `.lower()` on it) instead of wildcard-wrapping it, and the
string `"Null"` (lower-casing to `null`) is stored unwrapped with the
operator not rewritten. -/
theorem c5_counterexample :
    Predicate.make (str "labels[*]") (str "=") (.rval (.vint 5)) =
      .error .attributeError ∧
    Predicate.make (str "labels[*]") (str "=") (.rval (.vstr (str "Null"))) =
      .ok ⟨str "labels", str "=", .rval (.vstr (str "Null")), [.vstr (str "Null")]⟩ := by
  decide

/-- C2 (confirmed): appending an Aggregation fails with `InvalidQuery`
whenever the current stage sequence contains a Projection anywhere,
regardless of how many stages lie between them. -/
theorem c2_aggregation_after_projection (q : Query) (a : Aggregation)
    (h : ∃ s ∈ q.stages, s.isProjection = true) :
    q.append (.aggregation a) = .error .invalidQuery := by
  have hb : q.stages.any Stage.isProjection = true := by
    rcases h with ⟨s, hs, hp⟩
    exact List.any_eq_true.mpr ⟨s, hs, hp⟩
  simp [Query.append, hb]

/-- C2 witness: a query with a Projection three stages back still rejects
an Aggregation. -/
theorem c2_witness :
    Query.append
      ⟨[.table (str "t"), .projection [.str (str "a")], .unique, .limit 5], [str "t"]⟩
      (.aggregation ⟨[(str "COUNT", none, none)], []⟩) = .error .invalidQuery :=
  c2_aggregation_after_projection _ _
    ⟨.projection [.str (str "a")], by decide, by decide⟩

/-- C3 counterexample: the chain of the claim — `Query("events")` with
`Projection(["type"])`, `Group(["type"])`, `Aggregation([("COUNT","*","n")])`
appended in that order — does not render at all: the Aggregation append
raises `InvalidQuery` because a Projection is already present. -/
theorem c3_counterexample :
    ((Query.ofTable (str "events")).bind fun q =>
      (q.append (.projection [.str (str "type")])).bind fun q1 =>
        (q1.append (.group [.str (str "type")])).bind fun q2 =>
          (Aggregation.make [(str "COUNT", some (.str (str "*")), some (str "n"))]).bind
            fun a => q2.append (.aggregation a)) = .error .invalidQuery := by
  decide

/-- C3 (corrected): dropping the standalone Projection (which the code
forbids before an Aggregation), the query `Query("events")` with
`Group(["type"])` then `Aggregation([("COUNT","*","n")])` renders with the
select list exactly `"type", COUNT(*) AS "n"` followed by
`GROUP BY "type"`, the grouping column appearing once, inherited by the
Aggregation and not duplicated. -/
theorem c3_amended :
    ((Query.ofTable (str "events")).bind fun q =>
      (q.append (.group [.str (str "type")])).bind fun q1 =>
        (Aggregation.make [(str "COUNT", some (.str (str "*")), some (str "n"))]).bind
          fun a => (q1.append (.aggregation a)).bind fun q2 => q2.render (str "?"))
    = .ok ((str "SELECT \"type\", COUNT(*) AS \"n\" FROM \"events\" GROUP BY \"type\"",
            []),
           ⟨[.table (str "events"), .group [.str (str "type")],
             .aggregation ⟨[(str "COUNT", some (.str (str "*")), some (str "n"))],
                           [.str (str "type")]⟩],
            [str "events"]⟩) := by decide

/-- C6 counterexample: appending Unique, then `Projection(["a","b"])`,
then Count — in the order the claim states — folds nothing: all three
stages remain (four stages total), no CountUnique is formed, and the
standalone Projection's text does appear in the rendered SQL. -/
theorem c6_counterexample :
    ((Query.ofTable (str "t")).bind fun q =>
      (q.append .unique).bind fun q1 =>
        (q1.append (.projection [.str (str "a"), .str (str "b")])).bind fun q2 =>
          q2.append .count)
    = .ok ⟨[.table (str "t"), .unique, .projection [.str (str "a"), .str (str "b")],
            .count], [str "t"]⟩ ∧
    ((Query.ofTable (str "t")).bind fun q =>
      (q.append .unique).bind fun q1 =>
        (q1.append (.projection [.str (str "a"), .str (str "b")])).bind fun q2 =>
          (q2.append .count).bind fun q3 => q3.render (str "?")) =
    .ok ((str "SELECT COUNT(*) AS \"count\" SELECT \"a\", \"b\" SELECT DISTINCT * FROM \"t\"",
          []),
         ⟨[.table (str "t"), .unique, .projection [.str (str "a"), .str (str "b")],
           .count], [str "t"]⟩) := by decide

/-- C6 (corrected): the folding happens for the order Projection, then
Unique, then Count: for every query those three appends leave exactly one
stage in place of the three, a CountUnique over the Projection's columns,
and `CountUnique(["a","b"])` renders as `COUNT(DISTINCT "a", "b") AS
"count"` (shown here by a full render in which the standalone Projection's
text never appears). -/
theorem c6_amended (q : Query) (cols : List ColSpec) :
    ((q.append (.projection cols)).bind fun q1 =>
      (q1.append .unique).bind fun q2 => q2.append .count)
    = .ok ⟨q.stages ++ [.countUnique (some cols)], q.tables⟩ ∧
    ((Query.ofTable (str "t")).bind fun q0 =>
      (q0.append (.projection [.str (str "a"), .str (str "b")])).bind fun q1 =>
        (q1.append .unique).bind fun q2 =>
          (q2.append .count).bind fun q3 => q3.render (str "?")) =
    .ok ((str "SELECT COUNT(DISTINCT \"a\", \"b\") AS \"count\" FROM \"t\"", []),
         ⟨[.table (str "t"), .countUnique (some [.str (str "a"), .str (str "b")])],
          [str "t"]⟩) := by
  refine ⟨?_, by decide⟩
  simp only [Query.append, Except.bind, Query.lastStage, List.getLast?_concat,
    List.dropLast_concat]

/-- C7 counterexample: both Joins constructed with the very same arguments
(`Join("u", "a", "=", "b")`, default `lhs=None`): after the first append
resolves `prev_name` to `"t"`, the second — structurally identical as
constructed — no longer compares equal, is appended instead of dropped,
and the rendered SQL contains two JOIN clauses. -/
theorem c7_counterexample :
    ((Query.ofTable (str "t")).bind fun q =>
      (Join.make (str "u") (some (.str (str "a"))) (some (str "="))
          (some (.str (str "b"))) none (str "INNER") none none).bind fun j =>
        (q.append (.join j)).bind fun q1 =>
          (q1.append (.join j)).bind fun q2 => q2.render (str "?"))
    = .ok ((str "SELECT * FROM \"t\" INNER JOIN \"u\" ON \"t\".\"a\" = \"u\".\"b\" INNER JOIN \"u\" ON \"u\".\"a\" = \"u\".\"b\"",
            []),
           ⟨[.table (str "t"),
             .join ⟨some (str "t"), str "u", some (.str (str "a")), some (str "="),
                    some (.str (str "b")), str "INNER", none, [], none⟩,
             .join ⟨some (str "u"), str "u", some (.str (str "a")), some (str "="),
                    some (.str (str "b")), str "INNER", none, [], none⟩],
            [str "t"]⟩) := by decide

/-- C7 (corrected): the duplicate is dropped only when the incoming Join
also agrees on the resolved previous-table name: if the query ends in a
Join that compares equal (by `Join.__eq__`, which includes `prev_name`) to
the incoming one, append leaves the query unchanged; concretely, two Joins
built with the same explicit `lhs="t"` are deduplicated and the JOIN
clause renders once. -/
theorem c7_amended (q : Query) (j last : Join)
    (hlast : q.lastStage = some (.join last)) (heq : Join.pyEq last j = true) :
    q.append (.join j) = .ok q ∧
    ((Query.ofTable (str "t")).bind fun q0 =>
      (Join.make (str "u") (some (.str (str "a"))) (some (str "="))
          (some (.str (str "b"))) none (str "INNER") none (some (str "t"))).bind fun jj =>
        (q0.append (.join jj)).bind fun q1 =>
          (q1.append (.join jj)).bind fun q2 => q2.render (str "?"))
    = .ok ((str "SELECT * FROM \"t\" INNER JOIN \"u\" ON \"t\".\"a\" = \"u\".\"b\"", []),
           ⟨[.table (str "t"),
             .join ⟨some (str "t"), str "u", some (.str (str "a")), some (str "="),
                    some (.str (str "b")), str "INNER", none, [], none⟩],
            [str "t"]⟩) := by
  refine ⟨?_, by decide⟩
  simp [Query.append, hlast, heq]

/-- C7 witness: the amended claim applied at a concrete query ending in a
Join and an equal incoming Join. -/
theorem c7_witness :
    Query.append
      ⟨[.table (str "t"),
        .join ⟨some (str "t"), str "u", some (.str (str "a")), some (str "="),
               some (.str (str "b")), str "INNER", none, [], none⟩], [str "t"]⟩
      (.join ⟨some (str "t"), str "u", some (.str (str "a")), some (str "="),
              some (.str (str "b")), str "INNER", none, [], none⟩)
    = .ok ⟨[.table (str "t"),
            .join ⟨some (str "t"), str "u", some (.str (str "a")), some (str "="),
                   some (.str (str "b")), str "INNER", none, [], none⟩], [str "t"]⟩ :=
  (c7_amended
    ⟨[.table (str "t"),
      .join ⟨some (str "t"), str "u", some (.str (str "a")), some (str "="),
             some (.str (str "b")), str "INNER", none, [], none⟩], [str "t"]⟩
    ⟨some (str "t"), str "u", some (.str (str "a")), some (str "="),
     some (.str (str "b")), str "INNER", none, [], none⟩
    ⟨some (str "t"), str "u", some (.str (str "a")), some (str "="),
     some (.str (str "b")), str "INNER", none, [], none⟩
    (by decide) (by decide)).1

/-- C8 (confirmed): `Query.render` is deterministic and read-only — a
successful render returns the query unchanged, and rendering again with
the same placeholder returns the identical (text, values) pair. -/
theorem c8_render_pure (q q' : Query) (ph : Chars) (out : Chars × List Value)
    (h : q.render ph = .ok (out, q')) :
    q' = q ∧ q'.render ph = .ok (out, q') := by
  unfold Query.render at h
  by_cases ht : q.tables = []
  · rw [if_pos ht] at h
    cases h
  · rw [if_neg ht] at h
    cases hr : renderLoop ph q.stages none (str "") [] with
    | error e => rw [hr] at h; cases h
    | ok qv =>
        rw [hr] at h
        injection h with h
        have hq : q' = q := (congrArg Prod.snd h).symm
        subst hq
        refine ⟨rfl, ?_⟩
        unfold Query.render
        rw [if_neg ht, hr]
        exact congrArg Except.ok h

/-- C8 witness: a concrete render, applied twice. -/
theorem c8_witness :
    (⟨[.table (str "t")], [str "t"]⟩ : Query) = ⟨[.table (str "t")], [str "t"]⟩ ∧
    Query.render ⟨[.table (str "t")], [str "t"]⟩ (str "?") =
      .ok ((str "SELECT * FROM \"t\"", []), ⟨[.table (str "t")], [str "t"]⟩) :=
  c8_render_pure ⟨[.table (str "t")], [str "t"]⟩ ⟨[.table (str "t")], [str "t"]⟩
    (str "?") (str "SELECT * FROM \"t\"", []) (by decide)

/-- The previous-stage marker after processing `l`, starting from `prev`. -/
def lastOr (l : List Stage) (prev : Option Stage) : Option Stage :=
  match l.getLast? with
  | some s => some s
  | none => prev

theorem lastOr_cons (s : Stage) (l : List Stage) (prev : Option Stage) :
    lastOr (s :: l) prev = lastOr l (some s) := by
  cases l with
  | nil => rfl
  | cons c l =>
      unfold lastOr
      rw [List.getLast?_cons_cons]
      cases h : (c :: l).getLast? with
      | some x => rfl
      | none => simp at h

/-- The render fold is compositional: processing `l₁ ++ l₂` is processing
`l₁`, then processing `l₂` from the resulting accumulator, with the
previous-stage marker moved along. -/
theorem renderLoop_append (ph : Chars) (l₁ l₂ : List Stage) (prev : Option Stage)
    (txt : Chars) (vals : List Value) :
    renderLoop ph (l₁ ++ l₂) prev txt vals =
      match renderLoop ph l₁ prev txt vals with
      | .error e => .error e
      | .ok qv => renderLoop ph l₂ (lastOr l₁ prev) qv.1 qv.2 := by
  induction l₁ generalizing prev txt vals with
  | nil => rfl
  | cons s l₁ ih =>
      rw [List.cons_append]
      simp only [renderLoop]
      cases hs : s.render ph with
      | error e => rw [lastOr_cons]
      | ok text =>
          rw [lastOr_cons]
          exact ih (some s) (stageStep s prev text txt vals).1
            (stageStep s prev text txt vals).2

/-- C10 (confirmed): when the stage sequence contains a later Table stage,
rendering it resets the accumulated SQL text to its own FROM clause — the
result is computed from the post-Table stages alone, with every character
contributed by the earlier stages discarded and only their already
gathered bound values surviving into the output pair. -/
theorem c10_table_resets (q : Query) (ph : Chars) (pre : List Stage) (t : Chars)
    (post : List Stage) (tpre : Chars) (vpre : List Value)
    (hq : q.stages = pre ++ .table t :: post)
    (ht : ¬ q.tables = [])
    (hpre : renderLoop ph pre none (str "") [] = .ok (tpre, vpre)) :
    q.render ph =
      (match renderLoop ph post (some (.table t)) (str "FROM \"" ++ t ++ ['"']) vpre with
       | .ok qv => .ok ((finalize qv.1, qv.2), q)
       | .error e => .error e : Except Err ((Chars × List Value) × Query)) := by
  unfold Query.render
  rw [if_neg ht, hq, renderLoop_append, hpre]
  rfl

/-- C10 witness: a query `[Table "a", Filter(age>1), Table "b"]` — the
filter's text is discarded by the later Table, its bound value survives. -/
theorem c10_witness :
    Query.render
      ⟨[.table (str "a"),
        .filter ⟨[⟨str "age", str ">", .rval (.vint 1), [.vint 1]⟩], str " AND ",
                 [.vint 1]⟩,
        .table (str "b")], [str "a", str "b"]⟩ (str "?") =
      (match renderLoop (str "?") [] (some (.table (str "b")))
          (str "FROM \"" ++ str "b" ++ ['"']) [.vint 1] with
       | .ok qv =>
          .ok ((finalize qv.1, qv.2),
               ⟨[.table (str "a"),
                 .filter ⟨[⟨str "age", str ">", .rval (.vint 1), [.vint 1]⟩], str " AND ",
                          [.vint 1]⟩,
                 .table (str "b")], [str "a", str "b"]⟩)
       | .error e => .error e : Except Err ((Chars × List Value) × Query)) :=
  c10_table_resets _ (str "?")
    [.table (str "a"),
     .filter ⟨[⟨str "age", str ">", .rval (.vint 1), [.vint 1]⟩], str " AND ",
              [.vint 1]⟩]
    (str "b") [] (str "FROM \"a\" WHERE (\"age\" > ?)") [.vint 1]
    rfl (by decide) (by decide)

/-- True when the string contains no occurrence of the canonical
placeholder character. -/
def noQ (s : Chars) : Bool := s.all (fun c => c != '?')

theorem noQ_nil : noQ [] = true := rfl

theorem noQ_append (a b : Chars) : noQ (a ++ b) = (noQ a && noQ b) :=
  List.all_append

theorem noQ_cons (c : Char) (s : Chars) : noQ (c :: s) = ((c != '?') && noQ s) := by
  simp [noQ]

theorem noQ_count (s : Chars) (h : noQ s = true) : s.count '?' = 0 := by
  rw [List.count_eq_zero]
  intro hmem
  have := List.all_eq_true.mp h _ hmem
  simp at this

/-- Paste chunks back together with one placeholder character between
consecutive chunks. -/
def glue : List Chars → Chars
  | [] => []
  | [c] => c
  | c :: cs => c ++ '?' :: glue cs

/-- `txt` splits into `n + 1` placeholder-free chunks separated by `n`
placeholder characters: the shape of rendered SQL whose `n` placeholders
stand in left-to-right correspondence with `n` bound values. -/
def Chunked (txt : Chars) (n : Nat) : Prop :=
  ∃ cs : List Chars, cs ≠ [] ∧ (∀ c ∈ cs, noQ c = true) ∧ glue cs = txt ∧
    cs.length = n + 1

theorem glue_cons_cons (a b : Chars) (t : List Chars) :
    glue (a :: b :: t) = a ++ '?' :: glue (b :: t) := rfl

theorem glue_head_append (p c : Chars) (cs : List Chars) :
    glue ((p ++ c) :: cs) = p ++ glue (c :: cs) := by
  cases cs with
  | nil => rfl
  | cons d ds => simp [glue_cons_cons, List.append_assoc]

theorem glue_head_cons (x : Char) (c : Chars) (cs : List Chars) :
    glue ((x :: c) :: cs) = x :: glue (c :: cs) := by
  cases cs with
  | nil => rfl
  | cons d ds => simp [glue_cons_cons]

theorem chunked_single (s : Chars) (h : noQ s = true) : Chunked s 0 :=
  ⟨[s], by simp, by simpa using h, rfl, rfl⟩

theorem chunked_prepend (p txt : Chars) (n : Nat) (hp : noQ p = true)
    (h : Chunked txt n) : Chunked (p ++ txt) n := by
  obtain ⟨cs, hne, hq, hg, hl⟩ := h
  cases cs with
  | nil => cases hne rfl
  | cons c cs =>
      refine ⟨(p ++ c) :: cs, by simp, ?_, ?_, by simpa using hl⟩
      · intro d hd
        rcases List.mem_cons.mp hd with rfl | hd
        · simp [noQ_append, hp, hq c (by simp)]
        · exact hq d (by simp [hd])
      · rw [glue_head_append, hg]

theorem glue_last_append (cs : List Chars) (c p : Chars) :
    glue (cs ++ [c ++ p]) = glue (cs ++ [c]) ++ p := by
  induction cs with
  | nil => rfl
  | cons a cs ih =>
      cases cs with
      | nil => simp [glue_cons_cons, glue]
      | cons b bs =>
          simp only [List.cons_append] at ih ⊢
          rw [glue_cons_cons, glue_cons_cons, ih]
          simp [List.append_assoc]

theorem chunked_suffix (txt p : Chars) (n : Nat) (hp : noQ p = true)
    (h : Chunked txt n) : Chunked (txt ++ p) n := by
  obtain ⟨cs, hne, hq, hg, hl⟩ := h
  rcases List.eq_nil_or_concat cs with rfl | ⟨ci, cl, rfl⟩
  · cases hne rfl
  · simp only [List.concat_eq_append] at hne hq hg hl
    refine ⟨ci ++ [cl ++ p], by simp, ?_, ?_, by simpa using hl⟩
    · intro d hd
      rcases List.mem_append.mp hd with hd | hd
      · exact hq d (by simp [hd])
      · rcases List.mem_singleton.mp hd with rfl
        simp [noQ_append, hp, hq cl (by simp)]
    · rw [glue_last_append, hg]

theorem glue_seam (ci : List Chars) (cl dh : Chars) (dt : List Chars) :
    glue (ci ++ [cl]) ++ glue (dh :: dt) = glue (ci ++ (cl ++ dh) :: dt) := by
  induction ci with
  | nil =>
      cases dt with
      | nil => rfl
      | cons e es => simp [glue, glue_cons_cons, List.append_assoc]
  | cons a ci ih =>
      cases hci : ci ++ [cl] with
      | nil => exact absurd hci (by simp)
      | cons x xs =>
          rw [List.cons_append, hci, glue_cons_cons, ← hci]
          have hci2 : ci ++ (cl ++ dh) :: dt = (ci ++ [cl ++ dh]) ++ dt := by simp
          cases hd : ci ++ (cl ++ dh) :: dt with
          | nil => exact absurd hd (by simp)
          | cons y ys =>
              rw [List.cons_append, hd, glue_cons_cons, ← hd]
              rw [← ih]
              simp [List.append_assoc]

theorem chunked_append (a b : Chars) (m n : Nat) (ha : Chunked a m)
    (hb : Chunked b n) : Chunked (a ++ b) (m + n) := by
  obtain ⟨cs, hne, hq, hg, hl⟩ := ha
  obtain ⟨ds, hne2, hq2, hg2, hl2⟩ := hb
  rcases List.eq_nil_or_concat cs with rfl | ⟨ci, cl, rfl⟩
  · cases hne rfl
  simp only [List.concat_eq_append] at hne hq hg hl
  cases ds with
  | nil => cases hne2 rfl
  | cons dh dt =>
      refine ⟨ci ++ (cl ++ dh) :: dt, by simp, ?_, ?_, ?_⟩
      · intro d hd
        rcases List.mem_append.mp hd with hd | hd
        · exact hq d (by simp [hd])
        · rcases List.mem_cons.mp hd with rfl | hd
          · simp [noQ_append, hq cl (by simp), hq2 dh (by simp)]
          · exact hq2 d (by simp [hd])
      · rw [← glue_seam, hg, hg2]
      · have h1 : ci.length + 1 = m + 1 := by simpa using hl
        have h2 : dt.length + 1 = n + 1 := by simpa using hl2
        simp only [List.length_append, List.length_cons]
        omega

theorem chunked_drop_one (c : Char) (t : Chars) (n : Nat) (hc : (c != '?') = true)
    (h : Chunked (c :: t) n) : Chunked t n := by
  obtain ⟨cs, hne, hq, hg, hl⟩ := h
  cases cs with
  | nil => cases hne rfl
  | cons c0 cs =>
      cases c0 with
      | nil =>
          cases cs with
          | nil => simp [glue] at hg
          | cons d ds =>
              rw [glue_cons_cons] at hg
              simp only [List.nil_append] at hg
              injection hg with h1 h2
              rw [← h1] at hc
              simp at hc
      | cons x c0 =>
          rw [glue_head_cons] at hg
          injection hg with h1 h2
          refine ⟨c0 :: cs, by simp, ?_, h2, by simpa using hl⟩
          intro d hd
          rcases List.mem_cons.mp hd with rfl | hd
          · have := hq (x :: d) (by simp)
            rw [noQ_cons] at this
            exact (Bool.and_eq_true_iff.mp this).2
          · exact hq d (by simp [hd])

theorem chunked_drop (p t : Chars) (n : Nat) (hp : noQ p = true)
    (h : Chunked (p ++ t) n) : Chunked t n := by
  induction p with
  | nil => simpa using h
  | cons c p ih =>
      rw [noQ_cons, Bool.and_eq_true_iff] at hp
      exact ih hp.2 (chunked_drop_one c (p ++ t) n hp.1 (by simpa using h))

theorem startsW_decomp (p s : Chars) (h : startsW p s = true) :
    p ++ s.drop p.length = s := by
  induction p generalizing s with
  | nil => simp
  | cons c p ih =>
      cases s with
      | nil => simp [startsW] at h
      | cons d s =>
          rw [startsW, Bool.and_eq_true_iff] at h
          have hc : c = d := by simpa using h.1
          subst hc
          simpa using ih s h.2

theorem glue_count (cs : List Chars) (h : ∀ c ∈ cs, noQ c = true) :
    (glue cs).count '?' = cs.length - 1 := by
  induction cs with
  | nil => simp [glue]
  | cons c cs ih =>
      cases cs with
      | nil => simpa using noQ_count c (h c (by simp))
      | cons d ds =>
          rw [glue_cons_cons, List.count_append, noQ_count c (h c (by simp))]
          have h2 : ('?' :: glue (d :: ds)).count '?' = (glue (d :: ds)).count '?' + 1 := by
            simp [List.count_cons]
          rw [h2, ih (fun x hx => h x (List.mem_cons_of_mem _ hx))]
          simp

theorem chunked_count (txt : Chars) (n : Nat) (h : Chunked txt n) :
    txt.count '?' = n := by
  obtain ⟨cs, hne, hq, hg, hl⟩ := h
  rw [← hg, glue_count cs hq, hl]
  simp

theorem chunked_zero_noQ (t : Chars) (h : Chunked t 0) : noQ t = true := by
  obtain ⟨cs, hne, hq, hg, hl⟩ := h
  rcases cs with _ | ⟨c, _ | ⟨d, ds⟩⟩
  · cases hne rfl
  · rw [← hg]; exact hq c (by simp)
  · simp at hl

/-- Placeholder-freedom of an optional string, counting `None` as free. -/
def noQO : Option Chars → Bool
  | some s => noQ s
  | none => true

/-- Placeholder-freedom of every stored part of a `Column`. -/
def noQCol (c : Column) : Bool := noQ c.name && noQO c.table && noQO c.«alias»

/-- Placeholder-freedom of a column spec. -/
def noQSpec : ColSpec → Bool
  | .str s => noQ s
  | .col c => noQCol c

/-- Placeholder-freedom of an optional column spec. -/
def noQSpecOpt : Option ColSpec → Bool
  | some c => noQSpec c
  | none => true

theorem noQ_quote (s : Chars) (h : noQ s = true) : noQ (quote s) = true := by
  unfold quote
  split
  · exact h
  · simp [noQ_cons, noQ_append, noQ_nil, h]

theorem noQ_optStr (o : Option Chars) (h : noQO o = true) : noQ (optStr o) = true := by
  cases o with
  | none => decide
  | some s => exact h

theorem noQ_columnStr (c : Column) (h : noQCol c = true) : noQ (columnStr c) = true := by
  have h2 := h
  unfold noQCol at h2
  rw [Bool.and_eq_true, Bool.and_eq_true] at h2
  obtain ⟨⟨hn, ht⟩, ha⟩ := h2
  have hqn := noQ_quote c.name hn
  unfold columnStr
  rcases htb : c.table with _ | (_ | ⟨t, ts⟩) <;>
    rcases hal : c.«alias» with _ | (_ | ⟨a, as_⟩) <;>
      rw [htb] at ht <;> rw [hal] at ha <;> simp only [noQO] at ht ha <;>
      simp_all [noQ_cons, noQ_append, noQ_nil, hqn,
        show noQ (str "\".") = true from by decide,
        show noQ (str " AS \"") = true from by decide]

theorem noQ_colInterp (c : ColSpec) (h : noQSpec c = true) :
    noQ (colInterp c) = true := by
  cases c with
  | str s => exact h
  | col c => exact noQ_columnStr c h

theorem noQ_quoteSpec (c : ColSpec) (h : noQSpec c = true) :
    noQ (quoteSpec c) = true := by
  cases c with
  | str s => exact noQ_quote s h
  | col c => exact noQ_columnStr c h

theorem noQ_colInterpOpt (c : Option ColSpec) (h : noQSpecOpt c = true) :
    noQ (colInterpOpt c) = true := by
  cases c with
  | none => decide
  | some c => exact noQ_colInterp c h

theorem joinSep_cons_cons (sep a b : Chars) (t : List Chars) :
    joinSep sep (a :: b :: t) = a ++ sep ++ joinSep sep (b :: t) := rfl

theorem noQ_joinSep (sep : Chars) (ts : List Chars) (hsep : noQ sep = true)
    (h : ∀ t ∈ ts, noQ t = true) : noQ (joinSep sep ts) = true := by
  induction ts with
  | nil => rfl
  | cons t ts ih =>
      cases ts with
      | nil => simpa [joinSep] using h t (by simp)
      | cons u us =>
          rw [joinSep_cons_cons]
          simp [noQ_append, h t (by simp), hsep,
            ih (fun x hx => h x (List.mem_cons_of_mem _ hx))]

theorem digitChar_bne (k : Nat) : (digitChar k != '?') = true := by
  rcases k with _ | _ | _ | _ | _ | _ | _ | _ | _ | _ | k <;>
    first
      | decide
      | exact (by decide : (('*' : Char) != '?') = true)

theorem noQ_natCharsGo (fuel n : Nat) (acc : Chars) (h : noQ acc = true) :
    noQ (natCharsGo fuel n acc) = true := by
  induction fuel generalizing n acc with
  | zero => exact h
  | succ fuel ih =>
      rw [natCharsGo]
      split
      · simp [noQ_cons, digitChar_bne, h]
      · exact ih _ _ (by simp [noQ_cons, digitChar_bne, h])

theorem noQ_natChars (n : Nat) : noQ (natChars n) = true :=
  noQ_natCharsGo _ _ _ rfl

theorem noQ_orderCol (c : Chars × Chars) (h1 : noQ c.1 = true) (h2 : noQ c.2 = true) :
    noQ (orderCol c) = true := by
  unfold orderCol
  simp [noQ_cons, noQ_append, noQ_nil, h1, h2,
    show noQ (str "\" ") = true from by decide]

theorem noQ_groupColText (c : ColSpec) (h : noQSpec c = true) :
    noQ (groupColText c) = true := by
  cases c with
  | str s => exact h
  | col c =>
      have h2 := h
      unfold noQSpec noQCol at h2
      rw [Bool.and_eq_true, Bool.and_eq_true] at h2
      obtain ⟨⟨hn, ht⟩, _⟩ := h2
      unfold groupColText
      rcases htb : c.table with _ | (_ | ⟨t, ts⟩) <;> rw [htb] at ht <;>
        simp only [noQO] at ht <;>
        simp_all [noQ_cons, noQ_append, noQ_nil, hn,
          show noQ (str "\".\"") = true from by decide]

/-- Placeholder-freedom of one aggregate triple (also of its lower-cased
function name, which can appear as a default alias). -/
def aggNoQ (agg : Chars × Option ColSpec × Option Chars) : Bool :=
  noQ agg.1 && noQ (lowerChars agg.1) && noQSpecOpt agg.2.1 &&
  (match agg.2.2 with | some a => noQ a | none => true)

theorem noQ_aggExpr (agg : Chars × Option ColSpec × Option Chars)
    (h : aggNoQ agg = true) : noQ (aggExpr agg) = true := by
  obtain ⟨func, col, al⟩ := agg
  simp only [aggNoQ, Bool.and_eq_true] at h
  obtain ⟨⟨⟨h1, h2⟩, h3⟩, h4⟩ := h
  have hci : ∀ c : ColSpec, noQSpec c = true → noQ (colInterp c) = true := noQ_colInterp
  simp only [aggExpr]
  rcases col with _ | c <;> rcases al with _ | (_ | ⟨a, as_⟩) <;>
    simp only [noQSpecOpt] at h3 <;> split_ifs <;>
    simp_all [noQ_cons, noQ_append, noQ_nil, noQ_colInterp,
      show noQ (str "COUNT") = true from by decide,
      show noQ (str "count") = true from by decide,
      show noQ (str "DISTINCT ") = true from by decide,
      show noQ (str "*)") = true from by decide,
      show noQ (str "\")") = true from by decide,
      show noQ (str " AS \"") = true from by decide,
      show noQ (lowerChars (str "COUNT")) = true from by decide,
      show noQ (str "") = true from by decide] <;>
    try decide

theorem noQ_aggRender (a : Aggregation) (hg : a.group_cols.all noQSpec = true)
    (ha : a.aggs.all aggNoQ = true) : noQ a.render = true := by
  unfold Aggregation.render
  refine noQ_joinSep _ _ (by decide) ?_
  intro t ht
  rcases List.mem_append.mp ht with hm | hm
  · obtain ⟨c, hc, rfl⟩ := List.mem_map.mp hm
    exact noQ_quoteSpec c (List.all_eq_true.mp hg c hc)
  · obtain ⟨g, hgm, rfl⟩ := List.mem_map.mp hm
    exact noQ_aggExpr g (List.all_eq_true.mp ha g hgm)

theorem noQ_countUniqueText (cols : Option (List ColSpec))
    (h : (match cols with | some cs => cs.all noQSpec | none => true) = true) :
    noQ (countUniqueText cols) = true := by
  rcases cols with _ | (_ | ⟨c, cs⟩)
  · decide
  · decide
  · have hj : noQ (joinSep (str ", ")
        ((c :: cs).map (fun col => '"' :: colInterp col ++ ['"']))) = true := by
      refine noQ_joinSep _ _ (by decide) ?_
      intro t htm
      obtain ⟨d, hd, rfl⟩ := List.mem_map.mp htm
      simp [noQ_cons, noQ_append, noQ_nil,
        noQ_colInterp d (List.all_eq_true.mp h d hd)]
    simp only [List.map_cons] at hj
    simp [countUniqueText, noQ_append,
      show noQ (str "COUNT(DISTINCT ") = true from by decide,
      show noQ (str ") AS \"count\"") = true from by decide]
    exact hj

theorem noQ_filterKeyword (prev : Option Stage) : noQ (filterKeyword prev) = true := by
  cases prev with
  | none => decide
  | some s =>
      cases s <;>
        first
          | exact (by decide : noQ (str "WHERE") = true)
          | exact (by decide : noQ (str "AND") = true)
          | exact (by decide : noQ (str "HAVING") = true)

theorem chunked_ph_one : Chunked ['?'] 1 :=
  ⟨[[], []], by simp, by simp [noQ_nil], rfl, rfl⟩

theorem joinSep_cons_ne (sep a : Chars) (l : List Chars) (h : l ≠ []) :
    joinSep sep (a :: l) = a ++ sep ++ joinSep sep l := by
  cases l with
  | nil => cases h rfl
  | cons b t => rfl

theorem chunked_phs (k : Nat) (hk : 1 ≤ k) :
    Chunked (joinSep (str ", ") (List.replicate k ['?'])) k := by
  induction k with
  | zero => omega
  | succ k ih =>
      cases k with
      | zero => exact chunked_ph_one
      | succ k2 =>
          have h1 := ih (by omega)
          rw [List.replicate_succ, joinSep_cons_ne _ _ _ (by simp)]
          have h2 := chunked_append (['?'] ++ str ", ") (joinSep (str ", ")
            (List.replicate (k2 + 1) ['?'])) 1 (k2 + 1)
            (chunked_suffix _ _ _ (by decide) chunked_ph_one) h1
          have h3 : 1 + (k2 + 1) = k2 + 1 + 1 := by omega
          rw [h3] at h2
          simpa [List.append_assoc] using h2

/-- Consistency of a `Predicate` record as produced by `Predicate.make`:
its stored parts are placeholder-free and its `values` agree with its
right-hand side, with sequence right-hands used exactly for membership
tests. -/
def predWF (p : Predicate) : Bool :=
  noQ p.lhs && noQ p.op &&
  (match p.rhs with
   | .rlist vs => (p.op == str "IN") && (p.values == vs)
   | .rcol c => (p.values == ([] : List Value)) && noQCol c
   | .rval v =>
       if isNullStr p.rhs then p.values == ([] : List Value)
       else (p.values == [v]) && (p.op != str "IN")
   | .rnull => false)

theorem map_const_ph (vs : List Value) :
    vs.map (fun _ => str "?") = List.replicate vs.length ['?'] := by
  induction vs with
  | nil => rfl
  | cons w ws ih =>
      rw [List.map_cons, ih, List.length_cons, List.replicate_succ]
      rfl

/-- A rendered predicate splits into placeholder-free chunks with exactly
one placeholder per bound value. -/
theorem pred_render_chunked (p : Predicate) (t : Chars) (hWF : predWF p = true)
    (hr : p.render (str "?") = .ok t) : Chunked t p.values.length := by
  obtain ⟨lhs, op, rhs, values⟩ := p
  simp only [predWF, Bool.and_eq_true] at hWF
  obtain ⟨⟨hlhs, hop⟩, hrest⟩ := hWF
  have hql := noQ_quote lhs hlhs
  unfold Predicate.render at hr
  dsimp only at hr hrest ⊢
  rcases rhs with _ | v | vs | c <;> dsimp only at hr hrest
  · exact absurd hrest (by simp)
  · -- scalar right-hand side
    by_cases hnull : isNullStr (Rhs.rval v) = true
    · rw [if_pos hnull] at hr hrest
      have hv : values = [] := by simpa using hrest
      subst hv
      split_ifs at hr <;>
        (injection hr with hr; subst hr;
         exact chunked_single _ (by
           simp [noQ_cons, noQ_append, noQ_nil, hql,
             show noQ (str " IS NOT NULL)") = true from by decide,
             show noQ (str " IS NULL)") = true from by decide]))
    · rw [if_neg hnull] at hr hrest
      rw [Bool.and_eq_true] at hrest
      have hv : values = [v] := by simpa using hrest.1
      have hnotin : ¬ op = str "IN" := by simpa using hrest.2
      rw [if_neg hnotin] at hr
      injection hr with hr
      subst hr hv
      refine ⟨['(' :: quote lhs ++ ' ' :: op ++ [' '], [')']], by simp, ?_, ?_, rfl⟩
      · intro d hd
        rcases List.mem_cons.mp hd with rfl | hd
        · simp [noQ_cons, noQ_append, noQ_nil, hql, hop]
        · rcases List.mem_cons.mp hd with rfl | hd
          · decide
          · simp at hd
      · show ('(' :: quote lhs ++ ' ' :: op ++ [' ']) ++ '?' :: [')'] = _
        simp [List.append_assoc, show str "?" ++ [')'] = ['?', ')'] from rfl]
  · -- sequence right-hand side: membership test
    rw [Bool.and_eq_true] at hrest
    have hin : op = str "IN" := by simpa using hrest.1
    have hv : values = vs := by simpa using hrest.2
    rw [if_pos hin] at hr
    injection hr with hr
    subst hr
    rw [hv, map_const_ph]
    cases hvs : vs with
    | nil =>
        simp only [hvs, List.length_nil]
        refine chunked_single _ ?_
        simp [noQ_cons, noQ_append, noQ_nil, hql, hop,
          show noQ (str " (") = true from by decide,
          show noQ (str "))") = true from by decide, joinSep]
    | cons w ws =>
        have hphs := chunked_phs (ws.length + 1) (by omega)
        have h2 := chunked_suffix _ (str "))") _ (by decide)
          (chunked_prepend ('(' :: quote lhs ++ ' ' :: op ++ str " (") _ _
            (by simp [noQ_cons, noQ_append, noQ_nil, hql, hop,
              show noQ (str " (") = true from by decide]) hphs)
        simpa [hvs, List.append_assoc] using h2
  · -- Column right-hand side: identifier comparison, no values
    rw [Bool.and_eq_true] at hrest
    have hv : values = [] := by simpa using hrest.1
    injection hr with hr
    subst hr hv
    refine chunked_single _ ?_
    simp [noQ_cons, noQ_append, noQ_nil, hql, hop, noQ_columnStr c hrest.2]

theorem renderPreds_length (ph : Chars) :
    ∀ (ps : List Predicate) (ts : List Chars), renderPreds ph ps = .ok ts →
      ts.length = ps.length := by
  intro ps
  induction ps with
  | nil =>
      intro ts hr
      injection hr with hr
      subst hr
      rfl
  | cons p ps ih =>
      intro ts hr
      unfold renderPreds at hr
      cases h1 : p.render ph with
      | error e =>
          cases h2 : renderPreds ph ps <;> rw [h1, h2] at hr <;> cases hr
      | ok t =>
          cases h2 : renderPreds ph ps with
          | error e => rw [h1, h2] at hr; cases hr
          | ok ts2 =>
              rw [h1, h2] at hr
              injection hr with hr
              subst hr
              simp [ih ts2 h2]

theorem renderPreds_chunked (op : Chars) (hop : noQ op = true) :
    ∀ (ps : List Predicate) (ts : List Chars), ps.all predWF = true →
      renderPreds (str "?") ps = .ok ts →
      Chunked (joinSep op ts) ((ps.map Predicate.values).flatten).length := by
  intro ps
  induction ps with
  | nil =>
      intro ts _ hr
      injection hr with hr
      subst hr
      exact ⟨[[]], by simp, by simp [noQ_nil], rfl, rfl⟩
  | cons p ps ih =>
      intro ts hWF hr
      rw [List.all_cons, Bool.and_eq_true] at hWF
      unfold renderPreds at hr
      cases h1 : p.render (str "?") with
      | error e =>
          cases h2 : renderPreds (str "?") ps <;> rw [h1, h2] at hr <;> cases hr
      | ok t =>
          cases h2 : renderPreds (str "?") ps with
          | error e => rw [h1, h2] at hr; cases hr
          | ok ts2 =>
              rw [h1, h2] at hr
              injection hr with hr
              subst hr
              have hp := pred_render_chunked p t hWF.1 h1
              cases ps with
              | nil =>
                  have hts : ts2 = [] := by
                    unfold renderPreds at h2
                    injection h2 with h2e
                    exact h2e.symm
                  subst hts
                  simpa [joinSep] using hp
              | cons q qs =>
                  have hlen := renderPreds_length (str "?") (q :: qs) ts2 h2
                  cases ts2 with
                  | nil => simp at hlen
                  | cons u us =>
                      have hrest := ih (u :: us) hWF.2 h2
                      rw [joinSep_cons_cons]
                      have hcomb := chunked_append (t ++ op)
                        (joinSep op (u :: us)) p.values.length _
                        (chunked_suffix _ _ _ hop hp) hrest
                      have hfl : ((p :: q :: qs).map Predicate.values).flatten =
                          p.values ++ ((q :: qs).map Predicate.values).flatten := by
                        simp
                      rw [hfl]
                      simpa [List.append_assoc, List.length_append] using hcomb

/-- Consistency of a `Filter` record as produced by `Filter.__init__`. -/
def filterWF (f : Filter) : Bool :=
  noQ f.op && f.preds.all predWF &&
  (f.values == (f.preds.map Predicate.values).flatten)

/-- A rendered filter splits into placeholder-free chunks with exactly
one placeholder per bound value. -/
theorem filter_render_chunked (f : Filter) (t : Chars) (hWF : filterWF f = true)
    (hr : f.render (str "?") = .ok t) : Chunked t f.values.length := by
  obtain ⟨preds, op, values⟩ := f
  simp only [filterWF, Bool.and_eq_true] at hWF
  obtain ⟨⟨hop, hall⟩, hv⟩ := hWF
  have hveq : values = (preds.map Predicate.values).flatten := by simpa using hv
  unfold Filter.render at hr
  dsimp only at hr ⊢
  cases hrp : renderPreds (str "?") preds with
  | error e => rw [hrp] at hr; cases hr
  | ok ts =>
      rw [hrp] at hr
      have hc := renderPreds_chunked op hop preds ts hall hrp
      rw [hveq]
      split_ifs at hr with ho
      · injection hr with hr
        subst hr
        exact chunked_suffix _ _ _ (by decide)
          (chunked_prepend ['('] _ _ (by decide) hc)
      · injection hr with hr
        subst hr
        exact hc

/-- Consistency of a `Join` record as produced by `Join.__init__`:
placeholder-free identifier parts, and bound values agreeing with the
predicate list exactly when an explicit column condition is absent. -/
def joinWF (j : Join) : Bool :=
  noQ j.name && noQO j.«alias» && noQ (upperChars j.how) &&
  noQ (optStr j.prev_name) && noQ (optStr j.op) &&
  noQSpecOpt j.left_col && noQSpecOpt j.right_col &&
  (if specTrue j.left_col then j.values == ([] : List Value)
   else
     match j.preds with
     | some ps => ps.all predWF && (j.values == (ps.map Predicate.values).flatten)
     | none => j.values == ([] : List Value))

theorem chunked_prepend4 (p1 p2 p3 p4 b : Chars) (n : Nat)
    (h1 : noQ p1 = true) (h2 : noQ p2 = true) (h3 : noQ p3 = true)
    (h4 : noQ p4 = true) (hb : Chunked b n) :
    Chunked (p1 ++ p2 ++ p3 ++ p4 ++ b) n := by
  have h := chunked_prepend (p1 ++ (p2 ++ (p3 ++ p4))) b n
    (by simp [noQ_append, h1, h2, h3, h4]) hb
  simpa [List.append_assoc] using h

/-- A rendered join splits into placeholder-free chunks with exactly one
placeholder per bound value. -/
theorem join_render_chunked (j : Join) (t : Chars) (hWF : joinWF j = true)
    (hr : j.render (str "?") = .ok t) : Chunked t j.values.length := by
  obtain ⟨prev_name, name, left_col, jop, right_col, how, al, values, preds⟩ := j
  simp only [joinWF, Bool.and_eq_true] at hWF
  obtain ⟨⟨⟨⟨⟨⟨⟨h1, h2⟩, h3⟩, h4⟩, h5⟩, h6⟩, h7⟩, h8⟩ := hWF
  unfold Join.render at hr
  rcases al with _ | (_ | ⟨a, as_⟩) <;> simp only [noQO] at h2 <;>
    dsimp only at hr h8 ⊢ <;>
  all_goals (
    by_cases hlc : specTrue left_col = true
    · rw [if_pos hlc] at hr h8
      dsimp only at hr
      have hv : values = [] := by simpa using h8
      subst hv
      injection hr with hr
      subst hr
      refine chunked_single _ ?_
      simp_all [noQ_cons, noQ_append, noQ_nil,
        noQ_colInterpOpt left_col h6, noQ_colInterpOpt right_col h7,
        show noQ (str " JOIN ") = true from by decide,
        show noQ (str " ON ") = true from by decide,
        show noQ (str " AS \"") = true from by decide,
        show noQ (str "\".\"") = true from by decide,
        show noQ (str "\" ") = true from by decide,
        show noQ (str ".\"") = true from by decide]
    · rw [if_neg hlc] at hr h8
      rcases preds with _ | ps
      · dsimp only at hr
        cases hr
      · dsimp only at hr h8
        rw [Bool.and_eq_true] at h8
        have hv : values = (ps.map Predicate.values).flatten := by simpa using h8.2
        cases hrp : renderPreds (str "?") ps with
        | error e => rw [hrp] at hr; cases hr
        | ok ts =>
            rw [hrp] at hr
            dsimp only at hr
            injection hr with hr
            subst hr
            rw [hv]
            have hc := renderPreds_chunked (str " AND ") (by decide) ps ts h8.1 hrp
            exact chunked_prepend4 _ _ _ _ _ _ h3 (by decide)
              (by simp_all [noQ_cons, noQ_append, noQ_nil,
                show noQ (str " AS \"") = true from by decide]) (by decide) hc)

/-- Is this stage a `Table`? -/
def Stage.isTable : Stage → Bool
  | .table _ => true
  | _ => false

/-- Consistency of a stage as produced by the clause constructors: all
text-contributing strings are placeholder-free and the Filter/Join value
bookkeeping matches their predicates. -/
def stageWF : Stage → Bool
  | .table name => noQ name
  | .projection cols => cols.all noQSpec
  | .filter f => filterWF f
  | .order cols => cols.all (fun c => noQ c.1 && noQ c.2)
  | .group cols => cols.all noQSpec
  | .aggregation a => a.group_cols.all noQSpec && a.aggs.all aggNoQ
  | .offset _ => true
  | .limit _ => true
  | .count => true
  | .unique => true
  | .countUnique cols =>
      (match cols with | some cs => cs.all noQSpec | none => true)
  | .join j => joinWF j

/-- The text rendered by a well-formed stage splits into placeholder-free
chunks with one placeholder per bound value of the stage. -/
theorem stage_text_chunked (s : Stage) (t : Chars) (hWF : stageWF s = true)
    (hr : s.render (str "?") = .ok t) : Chunked t s.boundValues.length := by
  cases s with
  | table name =>
      injection hr with hr
      subst hr
      exact chunked_single _ hWF
  | projection cols =>
      injection hr with hr
      subst hr
      refine chunked_single _ (noQ_joinSep _ _ (by decide) ?_)
      intro x hx
      obtain ⟨c, hc, rfl⟩ := List.mem_map.mp hx
      exact noQ_quoteSpec c (List.all_eq_true.mp hWF c hc)
  | filter f => exact filter_render_chunked f t hWF hr
  | order cols =>
      injection hr with hr
      subst hr
      refine chunked_single _ (noQ_joinSep _ _ (by decide) ?_)
      intro x hx
      obtain ⟨c, hc, rfl⟩ := List.mem_map.mp hx
      have h2 := List.all_eq_true.mp hWF c hc
      rw [Bool.and_eq_true] at h2
      exact noQ_orderCol c h2.1 h2.2
  | group cols =>
      injection hr with hr
      subst hr
      refine chunked_single _ (noQ_joinSep _ _ (by decide) ?_)
      intro x hx
      obtain ⟨c, hc, rfl⟩ := List.mem_map.mp hx
      exact noQ_quote _ (noQ_groupColText c (List.all_eq_true.mp hWF c hc))
  | aggregation a =>
      injection hr with hr
      subst hr
      simp only [stageWF, Bool.and_eq_true] at hWF
      exact chunked_single _ (noQ_aggRender a hWF.1 hWF.2)
  | offset n =>
      injection hr with hr
      subst hr
      exact chunked_single _ (noQ_natChars n)
  | limit n =>
      injection hr with hr
      subst hr
      exact chunked_single _ (noQ_natChars n)
  | count =>
      injection hr with hr
      subst hr
      exact chunked_single _ (by decide)
  | unique =>
      injection hr with hr
      subst hr
      exact chunked_single _ (by decide)
  | countUnique cols =>
      injection hr with hr
      subst hr
      exact chunked_single _ (noQ_countUniqueText cols hWF)
  | join j => exact join_render_chunked j t hWF hr

theorem chunked_wrap (p txt q : Chars) (n : Nat) (hp : noQ p = true)
    (hq : noQ q = true) (h : Chunked txt n) : Chunked (p ++ txt ++ q) n := by
  have h2 := chunked_prepend p _ _ hp (chunked_suffix txt q n hq h)
  simpa [List.append_assoc] using h2

/-- One step of the render fold: a well-formed non-Table stage appends its
own bound values and keeps the accumulated text chunked, with one
placeholder per accumulated bound value. -/
theorem stageStep_chunked (s : Stage) (prev : Option Stage) (text txt : Chars)
    (vals : List Value) (hnt : s.isTable = false)
    (htext : Chunked text s.boundValues.length)
    (hC : Chunked txt vals.length) :
    (stageStep s prev text txt vals).2 = vals ++ s.boundValues ∧
    Chunked (stageStep s prev text txt vals).1 ((vals ++ s.boundValues).length) := by
  cases s with
  | table name => simp [Stage.isTable] at hnt
  | projection cols =>
      have ht0 : noQ text = true := chunked_zero_noQ text htext
      refine ⟨by simp [stageStep, Stage.boundValues], ?_⟩
      simp only [stageStep, Stage.boundValues, List.append_nil]
      have h := chunked_prepend (str "SELECT " ++ (text ++ [' '])) txt vals.length
        (by simp [noQ_append, noQ_cons, noQ_nil, ht0,
          show noQ (str "SELECT ") = true from by decide]) hC
      simpa [List.append_assoc] using h
  | aggregation a =>
      have ht0 : noQ text = true := chunked_zero_noQ text htext
      refine ⟨by simp [stageStep, Stage.boundValues], ?_⟩
      simp only [stageStep, Stage.boundValues, List.append_nil]
      have h := chunked_prepend (str "SELECT " ++ (text ++ [' '])) txt vals.length
        (by simp [noQ_append, noQ_cons, noQ_nil, ht0,
          show noQ (str "SELECT ") = true from by decide]) hC
      simpa [List.append_assoc] using h
  | filter f =>
      refine ⟨by simp [stageStep, Stage.boundValues], ?_⟩
      simp only [stageStep, Stage.boundValues]
      have h2 := chunked_prepend (' ' :: (filterKeyword prev ++ [' '])) text
        f.values.length
        (by simp [noQ_cons, noQ_append, noQ_nil, noQ_filterKeyword prev]) htext
      have h := chunked_append txt _ vals.length f.values.length hC h2
      rw [List.length_append]
      simpa [List.append_assoc] using h
  | group cols =>
      have ht0 : noQ text = true := chunked_zero_noQ text htext
      refine ⟨by simp [stageStep, Stage.boundValues], ?_⟩
      simp only [stageStep, Stage.boundValues, List.append_nil]
      have h := chunked_suffix txt (str " GROUP BY " ++ text) vals.length
        (by simp [noQ_append, ht0, show noQ (str " GROUP BY ") = true from by decide])
        hC
      simpa [List.append_assoc] using h
  | order cols =>
      have ht0 : noQ text = true := chunked_zero_noQ text htext
      refine ⟨by simp [stageStep, Stage.boundValues], ?_⟩
      simp only [stageStep, Stage.boundValues, List.append_nil]
      have h := chunked_suffix txt (str " ORDER BY " ++ text) vals.length
        (by simp [noQ_append, ht0, show noQ (str " ORDER BY ") = true from by decide])
        hC
      simpa [List.append_assoc] using h
  | limit n =>
      have ht0 : noQ text = true := chunked_zero_noQ text htext
      refine ⟨by simp [stageStep, Stage.boundValues], ?_⟩
      simp only [stageStep, Stage.boundValues, List.append_nil]
      have h := chunked_suffix txt (str " LIMIT " ++ text) vals.length
        (by simp [noQ_append, ht0, show noQ (str " LIMIT ") = true from by decide])
        hC
      simpa [List.append_assoc] using h
  | offset n =>
      have ht0 : noQ text = true := chunked_zero_noQ text htext
      refine ⟨by simp [stageStep, Stage.boundValues], ?_⟩
      simp only [stageStep, Stage.boundValues, List.append_nil]
      have h := chunked_suffix txt (str " OFFSET " ++ text) vals.length
        (by simp [noQ_append, ht0, show noQ (str " OFFSET ") = true from by decide])
        hC
      simpa [List.append_assoc] using h
  | count =>
      have ht0 : noQ text = true := chunked_zero_noQ text htext
      have hgen : (stageStep .count prev text txt vals).2 = vals ∧
          ((stageStep .count prev text txt vals).1 =
              str "SELECT " ++ text ++ ' ' :: txt ∨
            (stageStep .count prev text txt vals).1 =
              str "SELECT " ++ text ++ str " FROM (" ++ txt ++ str ") AS tmp") := by
        rcases prev with _ | p
        · exact ⟨rfl, Or.inl rfl⟩
        · cases p <;> first
            | exact ⟨rfl, Or.inl rfl⟩
            | exact ⟨rfl, Or.inr rfl⟩
      refine ⟨by simp [hgen.1, Stage.boundValues], ?_⟩
      simp only [Stage.boundValues, List.append_nil]
      rcases hgen.2 with hq | hq <;> rw [hq]
      · have h := chunked_prepend (str "SELECT " ++ (text ++ [' '])) txt vals.length
          (by simp [noQ_append, noQ_cons, noQ_nil, ht0,
            show noQ (str "SELECT ") = true from by decide]) hC
        simpa [List.append_assoc] using h
      · have h := chunked_wrap (str "SELECT " ++ (text ++ str " FROM (")) txt
          (str ") AS tmp") vals.length
          (by simp [noQ_append, ht0, show noQ (str "SELECT ") = true from by decide,
            show noQ (str " FROM (") = true from by decide]) (by decide) hC
        simpa [List.append_assoc] using h
  | unique =>
      refine ⟨by simp only [stageStep]; split <;> simp [Stage.boundValues], ?_⟩
      simp only [stageStep, Stage.boundValues, List.append_nil]
      by_cases hsw : startsW (str "SELECT ") txt = true
      · rw [if_pos hsw]
        have hdec := startsW_decomp _ _ hsw
        rw [show (str "SELECT ").length = 7 from rfl] at hdec
        have hdrop : Chunked (txt.drop 7) vals.length := by
          refine chunked_drop (str "SELECT ") _ _ (by decide) ?_
          rw [hdec]
          exact hC
        exact chunked_prepend _ _ _ (by decide) hdrop
      · rw [if_neg hsw]
        exact chunked_prepend _ _ _ (by decide) hC
  | countUnique cols =>
      have ht0 : noQ text = true := chunked_zero_noQ text htext
      rcases cols with _ | (_ | ⟨c, cs⟩) <;>
        (refine ⟨by simp [stageStep, Stage.boundValues], ?_⟩;
         simp only [stageStep, Stage.boundValues, List.append_nil]) <;>
        first
          | (have h := chunked_prepend (str "SELECT " ++ (text ++ [' '])) txt
              vals.length
              (by simp [noQ_append, noQ_cons, noQ_nil, ht0,
                show noQ (str "SELECT ") = true from by decide]) hC
             simpa [List.append_assoc] using h)
          | (have h := chunked_wrap
              (str "SELECT " ++ (text ++ str " FROM (SELECT DISTINCT * ")) txt
              (str ") AS tmp") vals.length
              (by simp [noQ_append, ht0,
                show noQ (str "SELECT ") = true from by decide,
                show noQ (str " FROM (SELECT DISTINCT * ") = true from by decide])
              (by decide) hC
             simpa [List.append_assoc] using h)
  | join j =>
      refine ⟨by simp [stageStep, Stage.boundValues], ?_⟩
      simp only [stageStep, Stage.boundValues]
      have h2 := chunked_prepend [' '] text j.values.length (by decide) htext
      have h := chunked_append txt _ vals.length j.values.length hC h2
      rw [List.length_append]
      simpa [List.append_assoc] using h

/-- The render fold over table-free, well-formed stages appends exactly
the Filter/Join bound values in stage order, and keeps the text chunked
with one placeholder per accumulated bound value. -/
theorem renderLoop_chunked :
    ∀ (stages : List Stage) (prev : Option Stage) (txt : Chars)
      (vals : List Value) (out : Chars × List Value),
      (∀ s ∈ stages, stageWF s = true) →
      (∀ s ∈ stages, s.isTable = false) →
      Chunked txt vals.length →
      renderLoop (str "?") stages prev txt vals = .ok out →
      out.2 = vals ++ boundValues stages ∧ Chunked out.1 out.2.length := by
  intro stages
  induction stages with
  | nil =>
      intro prev txt vals out _ _ hC hr
      injection hr with hr
      subst hr
      exact ⟨by simp [boundValues], hC⟩
  | cons s rest ih =>
      intro prev txt vals out hWF hnt hC hr
      unfold renderLoop at hr
      cases hs : s.render (str "?") with
      | error e => rw [hs] at hr; cases hr
      | ok text =>
          rw [hs] at hr
          dsimp only at hr
          have htext := stage_text_chunked s text (hWF s (by simp)) hs
          have hstep := stageStep_chunked s prev text txt vals
            (hnt s (by simp)) htext hC
          have hres := ih (some s) (stageStep s prev text txt vals).1
            (stageStep s prev text txt vals).2 out
            (fun x hx => hWF x (by simp [hx]))
            (fun x hx => hnt x (by simp [hx]))
            (by rw [hstep.1]; exact hstep.2) hr
          refine ⟨?_, hres.2⟩
          rw [hres.1, hstep.1]
          simp [boundValues, List.append_assoc]

/-- C1 counterexample, refuting the claim as stated at three explicit
inputs: (i) with placeholder token `"T"`, `Query("t")` renders text whose
token count is 1 while no value is bound (the token collides with the
`SELECT` keyword); (ii) with placeholder `"?"`, an `IN` predicate whose
right-hand side is the *string* `"abc"` renders three placeholders but
binds one value; (iii) a Query with a second Table stage discards the
text of an earlier Filter but keeps its bound value, rendering zero
placeholders with one value. -/
theorem c1_counterexample :
    (Query.render ⟨[.table (str "t")], [str "t"]⟩ (str "T") =
        .ok ((str "SELECT * FROM \"t\"", []), ⟨[.table (str "t")], [str "t"]⟩) ∧
      (str "SELECT * FROM \"t\"").count 'T' = 1) ∧
    (Query.render ⟨[.table (str "t"),
        .filter ⟨[⟨str "a", str "IN", .rval (.vstr (str "abc")),
                   [.vstr (str "abc")]⟩], str " AND ", [.vstr (str "abc")]⟩],
        [str "t"]⟩ (str "?") =
        .ok ((str "SELECT * FROM \"t\" WHERE (\"a\" IN (?, ?, ?))",
              [.vstr (str "abc")]),
             ⟨[.table (str "t"),
               .filter ⟨[⟨str "a", str "IN", .rval (.vstr (str "abc")),
                          [.vstr (str "abc")]⟩], str " AND ",
                        [.vstr (str "abc")]⟩], [str "t"]⟩) ∧
      (str "SELECT * FROM \"t\" WHERE (\"a\" IN (?, ?, ?))").count '?' = 3) ∧
    (Query.render ⟨[.table (str "a"),
        .filter ⟨[⟨str "age", str ">", .rval (.vint 1), [.vint 1]⟩], str " AND ",
                 [.vint 1]⟩,
        .table (str "b")], [str "a", str "b"]⟩ (str "?") =
        .ok ((str "SELECT * FROM \"b\"", [.vint 1]),
             ⟨[.table (str "a"),
               .filter ⟨[⟨str "age", str ">", .rval (.vint 1), [.vint 1]⟩],
                        str " AND ", [.vint 1]⟩,
               .table (str "b")], [str "a", str "b"]⟩) ∧
      (str "SELECT * FROM \"b\"").count '?' = 0) := by decide

/-- C1 (corrected): for every Query whose stage sequence starts with its
only Table stage and whose stages are well-formed (the shape produced by
the clause constructors, with sequence right-hands exactly on the
membership predicates), rendering with the placeholder `"?"` — a token
that cannot occur in validated identifiers or keyword text — returns a
pair in which the bound values are exactly those of the Filter and Join
stages concatenated in stage order, the text splits into placeholder-free
chunks around exactly one placeholder per bound value in left-to-right
order, and consequently the number of placeholder occurrences in the text
equals the number of bound values. -/
theorem c1_amended (q : Query) (t : Chars) (rest : List Stage)
    (txt : Chars) (vals : List Value) (q' : Query)
    (hshape : q.stages = .table t :: rest)
    (hnt : ∀ s ∈ rest, s.isTable = false)
    (hWF : ∀ s ∈ q.stages, stageWF s = true)
    (hok : q.render (str "?") = .ok ((txt, vals), q')) :
    vals = boundValues q.stages ∧ Chunked txt vals.length ∧
      txt.count '?' = vals.length := by
  unfold Query.render at hok
  by_cases ht : q.tables = []
  · rw [if_pos ht] at hok
    cases hok
  · rw [if_neg ht, hshape] at hok
    rw [show renderLoop (str "?") (Stage.table t :: rest) none (str "") [] =
        renderLoop (str "?") rest (some (.table t)) (str "FROM \"" ++ t ++ ['"']) []
      from rfl] at hok
    cases hrl : renderLoop (str "?") rest (some (.table t))
        (str "FROM \"" ++ t ++ ['"']) [] with
    | error e => rw [hrl] at hok; cases hok
    | ok out =>
        rw [hrl] at hok
        dsimp only at hok
        injection hok with hok
        have htxt : finalize out.1 = txt := congrArg (fun x => x.1.1) hok
        have hvals : out.2 = vals := congrArg (fun x => x.1.2) hok
        have hT : noQ t = true := by
          have h2 := hWF (.table t) (by rw [hshape]; simp)
          simpa [stageWF] using h2
        have hloop := renderLoop_chunked rest (some (.table t))
          (str "FROM \"" ++ t ++ ['"']) [] out
          (fun x hx => hWF x (by rw [hshape]; simp [hx]))
          hnt
          (by
            refine chunked_single _ ?_
            simp [noQ_append, noQ_cons, noQ_nil, hT,
              show noQ (str "FROM \"") = true from by decide])
          hrl
        have hv2 : vals = boundValues rest := by
          rw [← hvals, hloop.1]
          simp
        have hch : Chunked txt vals.length := by
          rw [← htxt]
          have hc := hloop.2
          rw [hvals] at hc
          unfold finalize
          split
          · exact hc
          · exact chunked_prepend _ _ _ (by decide) hc
        have hbv : boundValues (Stage.table t :: rest) = boundValues rest := by
          simp [boundValues, Stage.boundValues]
        rw [hshape, hbv]
        exact ⟨hv2, hch, chunked_count txt vals.length hch⟩

/-- C1 witness: the amended claim at `Query("people")` with the filter
`age > 30`, whose render is `SELECT * FROM "people" WHERE ("age" > ?)`
with the single bound value 30. -/
theorem c1_witness :
    ([Value.vint 30] : List Value) =
      boundValues [.table (str "people"),
        .filter ⟨[⟨str "age", str ">", .rval (.vint 30), [.vint 30]⟩],
                 str " AND ", [.vint 30]⟩] ∧
    Chunked (str "SELECT * FROM \"people\" WHERE (\"age\" > ?)")
      ([Value.vint 30] : List Value).length ∧
    (str "SELECT * FROM \"people\" WHERE (\"age\" > ?)").count '?' =
      ([Value.vint 30] : List Value).length :=
  c1_amended
    ⟨[.table (str "people"),
      .filter ⟨[⟨str "age", str ">", .rval (.vint 30), [.vint 30]⟩],
               str " AND ", [.vint 30]⟩], [str "people"]⟩
    (str "people")
    [.filter ⟨[⟨str "age", str ">", .rval (.vint 30), [.vint 30]⟩],
              str " AND ", [.vint 30]⟩]
    (str "SELECT * FROM \"people\" WHERE (\"age\" > ?)")
    [Value.vint 30]
    ⟨[.table (str "people"),
      .filter ⟨[⟨str "age", str ">", .rval (.vint 30), [.vint 30]⟩],
               str " AND ", [.vint 30]⟩], [str "people"]⟩
    rfl (by decide) (by decide) (by decide)

end Firepit
